import Mathlib

/-!
Shallow embedding of the eVTOL_sim repository (m-aleem/eVTOL_sim).

The vehicle state machine is translated from `src/src/vehicle.cpp`
(`Vehicle::updateState`, `Vehicle::fly`, `Vehicle::charge`,
`Vehicle::startCharging`, `Vehicle::setBatteryLevel`, `Vehicle::checkFault`),
the charger scheduler from `src/src/simulation.cpp`
(`Simulation::manageCharging`, `Simulation::assignAvailableChargers`,
`Simulation::processChargingVehicles`), and the cohort statistics from
`src/src/simulation.hpp` (`VehicleTypeStats`).

C++ `double` values are modelled as exact rationals (`ℚ`).  The random
source (`RandomGenerator::bernoulli`) is modelled as a pure stream: a
function from draw index and probability to `Bool`, together with a draw
counter carried in the vehicle state.

Statistics plumbing: `src/src/vehicle.hpp` declares two accumulators
(`stepStats`, reset per tick, and `totalStats`, lifetime totals) and the
tests and `simulation.cpp` read both, but the revision of `vehicle.cpp`
under `src/` is older and writes a single `stats` member whose field names
do not match `VehicleStats`; the per-step reset/accumulation code is not
under `src/`.  Modelled from the spec: every statistics increment in
`fly`/`charge`/`updateState` is applied to both `stepStats` and
`totalStats`, and `updateState` zeroes `stepStats` before processing
("step statistics are zeroed at the start of every external tick before
being populated by that tick's processing").  All algorithmic content
(branching, arithmetic, which bucket receives which amount) is taken from
`vehicle.cpp` as-is.
-/

namespace EVTOL

/-- `Vehicle::State` from vehicle.hpp. -/
inductive VState where
  | Ready
  | Flying
  | Queued
  | Charging
  | Faulted
deriving DecidableEq, Repr

/-- `VehicleStats` from vehicle.hpp: the per-step / lifetime statistics
record. -/
structure VehicleStats where
  flightTime : ℚ
  queuedTime : ℚ
  distanceTraveled : ℚ
  chargingTime : ℚ
  faultedTime : ℚ
  faults : ℕ
  passengerMiles : ℚ
deriving DecidableEq, Repr

/-- `VehicleStats::reset()`: all fields zero. -/
def VehicleStats.zero : VehicleStats :=
  ⟨0, 0, 0, 0, 0, 0, 0⟩

/-- `VehicleStats::add(other)`: componentwise sum. -/
def VehicleStats.add (a b : VehicleStats) : VehicleStats :=
  ⟨a.flightTime + b.flightTime, a.queuedTime + b.queuedTime,
   a.distanceTraveled + b.distanceTraveled, a.chargingTime + b.chargingTime,
   a.faultedTime + b.faultedTime, a.faults + b.faults,
   a.passengerMiles + b.passengerMiles⟩

/-- The `Vehicle` object state: immutable profile constants, the mutable
state-machine fields, the two statistics accumulators, and the pure model
of the attached `RandomGenerator` (a stream of Bernoulli outcomes indexed
by draw number and probability). -/
structure Vehicle where
  cruiseSpeed : ℚ
  batteryCapacity : ℚ
  timeToCharge : ℚ
  energyUsePerMile : ℚ
  passengerCount : ℤ
  faultProbability : ℚ
  currentState : VState
  batteryLevel : ℚ
  stepStats : VehicleStats
  totalStats : VehicleStats
  rngSeq : ℕ → ℚ → Bool
  rngIdx : ℕ

/-- `EPSILON` from vehicle.hpp. -/
def EPSILON : ℚ := 1 / 10000000000

/-- `Vehicle::setBatteryLevel`: clamp below at 0 first, then above at
capacity, exactly as the two `if` statements in the source. -/
def setBatteryLevel (level : ℚ) (v : Vehicle) : Vehicle :=
  let l1 := if level < 0 then 0 else level
  let l2 := if l1 > v.batteryCapacity then v.batteryCapacity else l1
  { v with batteryLevel := l2 }

/-- `Vehicle::setCurrentState`. -/
def setCurrentState (s : VState) (v : Vehicle) : Vehicle :=
  { v with currentState := s }

/-- `Vehicle::checkFault`: one Bernoulli draw with probability
`faultProbability * hours`, consuming one position of the stream. -/
def checkFault (hours : ℚ) (v : Vehicle) : Bool × Vehicle :=
  (v.rngSeq v.rngIdx (v.faultProbability * hours), { v with rngIdx := v.rngIdx + 1 })

/-- Add `d` to both the step and the lifetime accumulator (the
spec-modelled dual-accumulator plumbing; the amounts added are those of
`vehicle.cpp`). -/
def accrue (d : VehicleStats) (v : Vehicle) : Vehicle :=
  { v with stepStats := v.stepStats.add d, totalStats := v.totalStats.add d }

/-- Statistics delta of a flight segment: `hours` of flight over
`dist` miles with the vehicle's passenger count. -/
def flightDelta (hours dist : ℚ) (pc : ℤ) : VehicleStats :=
  { VehicleStats.zero with
      flightTime := hours, distanceTraveled := dist,
      passengerMiles := dist * (pc : ℚ) }

/-- Body of `Vehicle::fly` after the `Flying`-state guard (lines 147-221
of vehicle.cpp).  Returns the hours actually flown and the updated
vehicle. -/
def flyRun (hours : ℚ) (v : Vehicle) : ℚ × Vehicle :=
  if hours ≤ 0 then (0, v)
  else
    let distanceForFullFlight := v.cruiseSpeed * hours
    let energyNeededForFullFlight := distanceForFullFlight * v.energyUsePerMile
    if energyNeededForFullFlight > v.batteryLevel then
      -- partial flight limited by battery
      let maxDistance := v.batteryLevel / v.energyUsePerMile
      let actualHours := maxDistance / v.cruiseSpeed
      if actualHours > 0 then
        let (fault, v1) := checkFault actualHours v
        if fault then
          let partialHours := actualHours * (1/2)
          let partialDistance := v.cruiseSpeed * partialHours
          let partialEnergy := partialDistance * v.energyUsePerMile
          let v2 := accrue (flightDelta partialHours partialDistance v.passengerCount) v1
          let v3 := setBatteryLevel (max 0 (v2.batteryLevel - partialEnergy)) v2
          let v4 := { v3 with totalStats := { v3.totalStats with faults := v3.totalStats.faults + 1 },
                              stepStats := { v3.stepStats with faults := v3.stepStats.faults + 1 } }
          (partialHours, setCurrentState VState.Faulted v4)
        else
          let v2 := accrue (flightDelta actualHours maxDistance v.passengerCount) v1
          (actualHours, setCurrentState VState.Queued (setBatteryLevel 0 v2))
      else
        (actualHours, setCurrentState VState.Queued (setBatteryLevel 0 v))
    else
      let (fault, v1) := checkFault hours v
      if fault then
        let partialHours := hours * (1/2)
        let partialDistance := v.cruiseSpeed * partialHours
        let partialEnergy := partialDistance * v.energyUsePerMile
        let v2 := accrue (flightDelta partialHours partialDistance v.passengerCount) v1
        let v3 := setBatteryLevel (v2.batteryLevel - partialEnergy) v2
        let v4 := { v3 with totalStats := { v3.totalStats with faults := v3.totalStats.faults + 1 },
                            stepStats := { v3.stepStats with faults := v3.stepStats.faults + 1 } }
        (partialHours, setCurrentState VState.Faulted v4)
      else
        let v2 := setBatteryLevel (v1.batteryLevel - energyNeededForFullFlight) v1
        let v3 := accrue (flightDelta hours distanceForFullFlight v.passengerCount) v2
        if v3.batteryLevel ≤ EPSILON then
          (hours, setCurrentState VState.Queued (setBatteryLevel 0 v3))
        else
          (hours, v3)

inductive OpError where
  | notFlying
  | notCharging
  | notQueued
deriving DecidableEq, Repr

/-- `Vehicle::fly` with its precondition guard: throws (models as
`Except.error`) unless the state is `Flying`; the guard is the first
statement of the source function, before any mutation. -/
def fly (hours : ℚ) (v : Vehicle) : Except OpError (ℚ × Vehicle) :=
  if v.currentState = VState.Flying then Except.ok (flyRun hours v)
  else Except.error OpError.notFlying

/-- Body of `Vehicle::charge` after the `Charging`-state guard (lines
246-267 of vehicle.cpp). -/
def chargeRun (hours : ℚ) (v : Vehicle) : ℚ × Vehicle :=
  if hours ≤ 0 then (0, v)
  else
    let chargeRate := v.batteryCapacity / v.timeToCharge
    let energyNeeded := v.batteryCapacity - v.batteryLevel
    let maxEnergyCanAdd := chargeRate * hours
    let actualEnergyToAdd := min energyNeeded maxEnergyCanAdd
    let timeActuallyUsed := actualEnergyToAdd / chargeRate
    let v1 := setBatteryLevel (v.batteryLevel + actualEnergyToAdd) v
    let v2 := accrue { VehicleStats.zero with chargingTime := timeActuallyUsed } v1
    if v2.batteryLevel ≥ v2.batteryCapacity then
      (timeActuallyUsed, setCurrentState VState.Ready (setBatteryLevel v2.batteryCapacity v2))
    else
      (timeActuallyUsed, v2)

/-- `Vehicle::charge` with its precondition guard. -/
def charge (hours : ℚ) (v : Vehicle) : Except OpError (ℚ × Vehicle) :=
  if v.currentState = VState.Charging then Except.ok (chargeRun hours v)
  else Except.error OpError.notCharging

/-- Statistics delta crediting `t` hours of queued time. -/
def queuedDelta (t : ℚ) : VehicleStats :=
  { VehicleStats.zero with queuedTime := t }

/-- Statistics delta crediting `t` hours of faulted time. -/
def faultedDelta (t : ℚ) : VehicleStats :=
  { VehicleStats.zero with faultedTime := t }

/-- One execution of the `switch` in `Vehicle::updateState`: given the
remaining time and the vehicle, returns `(continueProcessing,
remainingTime, vehicle)` as left by that iteration's case. -/
def stepBody (r : ℚ) (v : Vehicle) : Bool × ℚ × Vehicle :=
  match v.currentState with
  | VState.Ready =>
      if v.batteryLevel > 0 then (true, r, setCurrentState VState.Flying v)
      else (false, r, v)
  | VState.Flying =>
      if r > 0 then
        let (timeUsed, v1) := flyRun r v
        let r1 := r - timeUsed
        if v1.currentState = VState.Queued ∧ r1 > 0 then
          (false, 0, accrue (queuedDelta r1) v1)
        else if v1.currentState = VState.Faulted then
          (false, 0, accrue (faultedDelta timeUsed) v1)
        else
          (false, r1, v1)
      else (false, r, v)
  | VState.Charging =>
      if r > 0 then
        let (timeUsed, v1) := chargeRun r v
        (v1.currentState = VState.Ready, r - timeUsed, v1)
      else if v.batteryLevel ≥ v.batteryCapacity then
        (true, r, setCurrentState VState.Ready (setBatteryLevel v.batteryCapacity v))
      else (false, r, v)
  | VState.Queued =>
      if r > 0 then (false, 0, accrue (queuedDelta r) v)
      else (false, r, v)
  | VState.Faulted =>
      (false, 0, setCurrentState VState.Faulted (accrue (faultedDelta r) v))

/-- The `while (continueProcessing && remainingTime >= 0)` loop of
`Vehicle::updateState`, entered with `continueProcessing = true`.  The
fuel bound 4 is sufficient: `stepBody` requests continuation only when it
leaves the vehicle `Ready` or `Flying` via a zero-cost transition, and
such chains have length at most three (`Charging → Ready → Flying →
stop`); `goLoop_fuel` below proves the result is fuel-independent from 4
upward. -/
def goLoop : ℕ → ℚ → Vehicle → Vehicle
  | 0, _, v => v
  | n + 1, r, v =>
      if r < 0 then v
      else if (stepBody r v).1 then goLoop n (stepBody r v).2.1 (stepBody r v).2.2
      else (stepBody r v).2.2

/-- Zero the step accumulator (spec-modelled reset at the start of every
external tick). -/
def resetStep (v : Vehicle) : Vehicle :=
  { v with stepStats := VehicleStats.zero }

/-- `Vehicle::updateState`: reset the step statistics, then run the
transition loop on the full budget. -/
def updateState (hours : ℚ) (v : Vehicle) : Vehicle :=
  goLoop 4 hours (resetStep v)

/-- `Vehicle::startCharging` with its precondition guard: transition to
`Charging`, then `updateState(0.0)` for follow-up transitions. -/
def startCharging (v : Vehicle) : Except OpError Vehicle :=
  if v.currentState = VState.Queued then
    Except.ok (updateState 0 (setCurrentState VState.Charging v))
  else Except.error OpError.notQueued

/-- The `Vehicle` constructor: starts `Ready` with a full battery and
zeroed statistics. -/
def mkVehicle (cruiseSpeed batteryCapacity timeToCharge energyUsePerMile : ℚ)
    (passengerCount : ℤ) (faultProbability : ℚ) (rngSeq : ℕ → ℚ → Bool) : Vehicle :=
  { cruiseSpeed := cruiseSpeed, batteryCapacity := batteryCapacity,
    timeToCharge := timeToCharge, energyUsePerMile := energyUsePerMile,
    passengerCount := passengerCount, faultProbability := faultProbability,
    currentState := VState.Ready, batteryLevel := batteryCapacity,
    stepStats := VehicleStats.zero, totalStats := VehicleStats.zero,
    rngSeq := rngSeq, rngIdx := 0 }

end EVTOL


namespace EVTOL

/-! ### Projection lemmas for the state-mutating helpers -/

@[simp] theorem setBatteryLevel_currentState (l : ℚ) (v : Vehicle) :
    (setBatteryLevel l v).currentState = v.currentState := rfl

@[simp] theorem setBatteryLevel_batteryCapacity (l : ℚ) (v : Vehicle) :
    (setBatteryLevel l v).batteryCapacity = v.batteryCapacity := rfl

@[simp] theorem setBatteryLevel_stepStats (l : ℚ) (v : Vehicle) :
    (setBatteryLevel l v).stepStats = v.stepStats := rfl

@[simp] theorem setBatteryLevel_totalStats (l : ℚ) (v : Vehicle) :
    (setBatteryLevel l v).totalStats = v.totalStats := rfl

@[simp] theorem setCurrentState_batteryLevel (s : VState) (v : Vehicle) :
    (setCurrentState s v).batteryLevel = v.batteryLevel := rfl

@[simp] theorem setCurrentState_batteryCapacity (s : VState) (v : Vehicle) :
    (setCurrentState s v).batteryCapacity = v.batteryCapacity := rfl

@[simp] theorem setCurrentState_currentState (s : VState) (v : Vehicle) :
    (setCurrentState s v).currentState = s := rfl

@[simp] theorem setCurrentState_stepStats (s : VState) (v : Vehicle) :
    (setCurrentState s v).stepStats = v.stepStats := rfl

@[simp] theorem setCurrentState_totalStats (s : VState) (v : Vehicle) :
    (setCurrentState s v).totalStats = v.totalStats := rfl

@[simp] theorem accrue_batteryLevel (d : VehicleStats) (v : Vehicle) :
    (accrue d v).batteryLevel = v.batteryLevel := rfl

@[simp] theorem accrue_batteryCapacity (d : VehicleStats) (v : Vehicle) :
    (accrue d v).batteryCapacity = v.batteryCapacity := rfl

@[simp] theorem accrue_currentState (d : VehicleStats) (v : Vehicle) :
    (accrue d v).currentState = v.currentState := rfl

@[simp] theorem accrue_stepStats (d : VehicleStats) (v : Vehicle) :
    (accrue d v).stepStats = v.stepStats.add d := rfl

@[simp] theorem accrue_totalStats (d : VehicleStats) (v : Vehicle) :
    (accrue d v).totalStats = v.totalStats.add d := rfl

@[simp] theorem resetStep_batteryLevel (v : Vehicle) :
    (resetStep v).batteryLevel = v.batteryLevel := rfl

@[simp] theorem resetStep_batteryCapacity (v : Vehicle) :
    (resetStep v).batteryCapacity = v.batteryCapacity := rfl

@[simp] theorem resetStep_currentState (v : Vehicle) :
    (resetStep v).currentState = v.currentState := rfl

@[simp] theorem resetStep_stepStats (v : Vehicle) :
    (resetStep v).stepStats = VehicleStats.zero := rfl

@[simp] theorem resetStep_totalStats (v : Vehicle) :
    (resetStep v).totalStats = v.totalStats := rfl

/-! ### Battery clamping -/

/-- The clamp in `setBatteryLevel` lands in `[0, capacity]` whenever the
capacity is non-negative. -/
theorem setBatteryLevel_mem (l : ℚ) (v : Vehicle) (hc : 0 ≤ v.batteryCapacity) :
    0 ≤ (setBatteryLevel l v).batteryLevel ∧
      (setBatteryLevel l v).batteryLevel ≤ v.batteryCapacity := by
  simp only [setBatteryLevel]
  split_ifs with h1 h2 h3 <;> constructor <;> linarith

/-- Battery bounds: level within `[0, capacity]`. -/
def BatteryInv (v : Vehicle) : Prop :=
  0 ≤ v.batteryLevel ∧ v.batteryLevel ≤ v.batteryCapacity

/-- `flyRun` keeps the battery within bounds and does not touch the
capacity. -/
theorem flyRun_batteryInv (h : ℚ) (v : Vehicle) (hc : 0 ≤ v.batteryCapacity)
    (hv : BatteryInv v) :
    BatteryInv (flyRun h v).2 ∧ (flyRun h v).2.batteryCapacity = v.batteryCapacity := by
  simp only [flyRun, checkFault]
  split_ifs <;>
    simp_all [BatteryInv, setBatteryLevel_mem, setBatteryLevel] <;>
    split_ifs <;> simp_all

/-- `chargeRun` keeps the battery within bounds and does not touch the
capacity. -/
theorem chargeRun_batteryInv (h : ℚ) (v : Vehicle) (hc : 0 ≤ v.batteryCapacity)
    (hv : BatteryInv v) :
    BatteryInv (chargeRun h v).2 ∧ (chargeRun h v).2.batteryCapacity = v.batteryCapacity := by
  simp only [chargeRun]
  split_ifs <;>
    simp_all [BatteryInv, setBatteryLevel_mem, setBatteryLevel] <;>
    split_ifs <;> simp_all

end EVTOL

namespace EVTOL

/-- One loop body keeps the battery within bounds and the capacity
unchanged. -/
theorem stepBody_batteryInv (r : ℚ) (v : Vehicle) (hc : 0 ≤ v.batteryCapacity)
    (hv : BatteryInv v) :
    BatteryInv (stepBody r v).2.2 ∧ (stepBody r v).2.2.batteryCapacity = v.batteryCapacity := by
  cases hs : v.currentState <;> simp only [stepBody, hs]
  case Ready => split_ifs <;> simpa [BatteryInv] using hv
  case Flying =>
    rcases hfv : flyRun r v with ⟨t, v1⟩
    have := flyRun_batteryInv r v hc hv
    rw [hfv] at this
    split_ifs <;> simp_all [BatteryInv] <;>
      first
        | linarith [this.1.1, this.1.2, this.2.le, this.2.ge]
        | (constructor <;> linarith [this.1.1, this.1.2, this.2.le, this.2.ge])
  case Charging =>
    rcases hcv : chargeRun r v with ⟨t, v1⟩
    have := chargeRun_batteryInv r v hc hv
    rw [hcv] at this
    have hm := setBatteryLevel_mem v.batteryCapacity v hc
    split_ifs <;> simp_all [BatteryInv] <;>
      first
        | linarith [this.1.1, this.1.2, this.2.le, this.2.ge]
        | (constructor <;> linarith [this.1.1, this.1.2, this.2.le, this.2.ge])
  case Queued => split_ifs <;> simpa [BatteryInv] using hv
  case Faulted => simpa [BatteryInv] using hv

/-- The transition loop keeps the battery within bounds and the capacity
unchanged. -/
theorem goLoop_batteryInv (n : ℕ) (r : ℚ) (v : Vehicle) (hc : 0 ≤ v.batteryCapacity)
    (hv : BatteryInv v) :
    BatteryInv (goLoop n r v) ∧ (goLoop n r v).batteryCapacity = v.batteryCapacity := by
  induction n generalizing r v with
  | zero => exact ⟨hv, rfl⟩
  | succ n ih =>
    simp only [goLoop]
    by_cases h1 : r < 0
    · simp only [if_pos h1]; exact ⟨hv, trivial⟩
    · have hbi := stepBody_batteryInv r v hc hv
      by_cases hcont : (stepBody r v).1 = true
      · simp only [if_neg h1, if_pos hcont]
        have hc1 : 0 ≤ (stepBody r v).2.2.batteryCapacity := by rw [hbi.2]; exact hc
        have h2 := ih (stepBody r v).2.1 (stepBody r v).2.2 hc1 hbi.1
        exact ⟨h2.1, h2.2.trans hbi.2⟩
      · simp only [if_neg h1, if_neg hcont]
        exact hbi

/-- C7.  After `updateState` (advance) the battery level lies in
`[0, capacity]`, the other public operations (`fly`, `charge`,
`startCharging`, `setBatteryLevel`, `setCurrentState`) preserve this, and
the constructor establishes it. -/
theorem claim_C7_battery_bounds (v : Vehicle) (h l : ℚ) (s : VState)
    (hc : 0 ≤ v.batteryCapacity) (hv : BatteryInv v) :
    BatteryInv (updateState h v) ∧
    (∀ t v', fly h v = Except.ok (t, v') → BatteryInv v') ∧
    (∀ t v', charge h v = Except.ok (t, v') → BatteryInv v') ∧
    (∀ v', startCharging v = Except.ok v' → BatteryInv v') ∧
    BatteryInv (setBatteryLevel l v) ∧
    BatteryInv (setCurrentState s v) ∧
    (∀ cs cap ttc epm pc fp seq, 0 ≤ cap →
      BatteryInv (mkVehicle cs cap ttc epm pc fp seq)) := by
  have hreset : BatteryInv (resetStep v) := hv
  refine ⟨(goLoop_batteryInv 4 h (resetStep v) hc hreset).1, ?_, ?_, ?_, ?_, ?_, ?_⟩
  · intro t v' hok
    simp only [fly] at hok
    split_ifs at hok
    · injection hok with h3
      have h4 : (flyRun h v).2 = v' := by rw [h3]
      exact h4 ▸ (flyRun_batteryInv h v hc hv).1
  · intro t v' hok
    simp only [charge] at hok
    split_ifs at hok
    · injection hok with h3
      have h4 : (chargeRun h v).2 = v' := by rw [h3]
      exact h4 ▸ (chargeRun_batteryInv h v hc hv).1
  · intro v' hok
    simp only [startCharging] at hok
    split_ifs at hok
    · injection hok with h3
      have : BatteryInv (updateState 0 (setCurrentState VState.Charging v)) :=
        (goLoop_batteryInv 4 0 (resetStep (setCurrentState VState.Charging v)) hc hv).1
      exact h3 ▸ this
  · exact ⟨(setBatteryLevel_mem l v hc).1, (setBatteryLevel_mem l v hc).2⟩
  · exact ⟨hv.1, hv.2⟩
  · exact fun cs cap ttc epm pc fp seq hcap => ⟨hcap, le_refl _⟩

end EVTOL

namespace EVTOL

/-! ### Concrete vehicles used as witnesses and counterexamples -/

/-- A freshly constructed vehicle (state `Ready`, full battery) whose
random source never reports a fault. -/
def exPlainV : Vehicle := mkVehicle 1 10 1 1 1 1 (fun _ _ => false)

/-- A `Flying` vehicle with battery 1 (enough for one hour at these
constants) and a random source that always reports a fault. -/
def exFaultV : Vehicle :=
  { mkVehicle 1 10 1 1 1 1 (fun _ _ => true) with
      currentState := VState.Flying, batteryLevel := 1 }

/-- A `Charging` vehicle with battery 4 out of 10 and a fault-free random
source. -/
def exChargingV : Vehicle :=
  { mkVehicle 1 10 1 1 1 1 (fun _ _ => false) with
      currentState := VState.Charging, batteryLevel := 4 }

theorem claim_C7_battery_bounds_witness :
    BatteryInv (updateState 1 exPlainV) :=
  (claim_C7_battery_bounds exPlainV 1 0 VState.Ready
    (by norm_num [exPlainV, mkVehicle])
    ⟨by norm_num [exPlainV, mkVehicle], by norm_num [exPlainV, mkVehicle]⟩).1

/-- C8.  Each of the three state-preconditioned operations fails fast
with a precondition-violation error when its precondition is unmet; the
error carries no mutated vehicle (in the source the `throw` is the first
statement, before any state change). -/
theorem claim_C8_precondition_errors (v : Vehicle) (h : ℚ) :
    (v.currentState ≠ VState.Flying → fly h v = Except.error OpError.notFlying) ∧
    (v.currentState ≠ VState.Charging → charge h v = Except.error OpError.notCharging) ∧
    (v.currentState ≠ VState.Queued → startCharging v = Except.error OpError.notQueued) := by
  refine ⟨fun hs => ?_, fun hs => ?_, fun hs => ?_⟩ <;>
    simp [fly, charge, startCharging, hs]

theorem claim_C8_precondition_errors_witness :
    fly 1 exPlainV = Except.error OpError.notFlying ∧
    charge 1 exPlainV = Except.error OpError.notCharging ∧
    startCharging exPlainV = Except.error OpError.notQueued :=
  ⟨(claim_C8_precondition_errors exPlainV 1).1 (by decide),
   (claim_C8_precondition_errors exPlainV 1).2.1 (by decide),
   (claim_C8_precondition_errors exPlainV 1).2.2 (by decide)⟩

/-- C10.  With the precondition satisfied, `fly` and `charge` with a
non-positive duration return `0.0` and leave the vehicle unchanged. -/
theorem claim_C10_nonpositive_noop (v : Vehicle) (h : ℚ) (hh : h ≤ 0) :
    (v.currentState = VState.Flying → fly h v = Except.ok (0, v)) ∧
    (v.currentState = VState.Charging → charge h v = Except.ok (0, v)) := by
  constructor <;> intro hs <;> simp [fly, charge, flyRun, chargeRun, hs, hh]

theorem claim_C10_nonpositive_noop_witness :
    fly 0 exFaultV = Except.ok (0, exFaultV) ∧
    charge 0 exChargingV = Except.ok (0, exChargingV) :=
  ⟨(claim_C10_nonpositive_noop exFaultV 0 (le_refl 0)).1 (by decide),
   (claim_C10_nonpositive_noop exChargingV 0 (le_refl 0)).2 (by decide)⟩

/-! ### Cohort statistics (`VehicleTypeStats`, simulation.hpp) -/

/-- `VehicleTypeStats` from simulation.hpp: accumulated per-cohort sums.
The two identification fields (`manufacturer`, `manufacturerName`) are
print-only and omitted. -/
structure VehicleTypeStats where
  vehicleCount : ℕ
  totalFlights : ℕ
  totalCharges : ℕ
  totalFlightTime : ℚ
  totalDistance : ℚ
  totalChargingTime : ℚ
  totalFaults : ℕ
  totalPassengerMiles : ℚ
deriving DecidableEq, Repr

/-- `VehicleTypeStats::getFaultRate` (simulation.hpp lines 45-47):
`totalFaults > 0 ? static_cast<double>(totalFaults) / vehicleCount : 0.0`. -/
def VehicleTypeStats.getFaultRate (s : VehicleTypeStats) : ℚ :=
  if 0 < s.totalFaults then (s.totalFaults : ℚ) / (s.vehicleCount : ℚ) else 0

/-- `VehicleTypeStats::avgFlightTimePerFlight`. -/
def VehicleTypeStats.avgFlightTimePerFlight (s : VehicleTypeStats) : ℚ :=
  if 0 < s.totalFlights then s.totalFlightTime / (s.totalFlights : ℚ) else 0

/-- `VehicleTypeStats::avgDistancePerFlight`. -/
def VehicleTypeStats.avgDistancePerFlight (s : VehicleTypeStats) : ℚ :=
  if 0 < s.totalFlights then s.totalDistance / (s.totalFlights : ℚ) else 0

/-- `VehicleTypeStats::avgChargingTimePerSession`. -/
def VehicleTypeStats.avgChargingTimePerSession (s : VehicleTypeStats) : ℚ :=
  if 0 < s.totalCharges then s.totalChargingTime / (s.totalCharges : ℚ) else 0

/-- A cohort record with 4 vehicles, 2 faults and 1 total flight hour:
the observed-fault-rate accessor yields 2/4, not 2/1. -/
def exTS : VehicleTypeStats :=
  { vehicleCount := 4, totalFlights := 1, totalCharges := 0,
    totalFlightTime := 1, totalDistance := 0, totalChargingTime := 0,
    totalFaults := 2, totalPassengerMiles := 0 }

/-- C9 counterexample: the derived fault-rate metric is NOT total faults
divided by total flight hours — on `exTS` the accessor returns 1/2 while
faults per flight-hour is 2. -/
theorem claim_C9_counterexample :
    VehicleTypeStats.getFaultRate exTS ≠ (exTS.totalFaults : ℚ) / exTS.totalFlightTime := by
  norm_num [VehicleTypeStats.getFaultRate, exTS]

/-- C9 as amended: the metric is computed on demand from the accumulated
sums alone — it is a function of the fault sum and the vehicle count only
(nothing stored redundantly), equal to faults ÷ vehicleCount when any
fault was recorded and 0 otherwise. -/
theorem claim_C9_fault_rate (s t : VehicleTypeStats) :
    (s.totalFaults = t.totalFaults → s.vehicleCount = t.vehicleCount →
      s.getFaultRate = t.getFaultRate) ∧
    (0 < s.totalFaults → s.getFaultRate = (s.totalFaults : ℚ) / (s.vehicleCount : ℚ)) ∧
    (s.totalFaults = 0 → s.getFaultRate = 0) := by
  exact ⟨fun h1 h2 => by simp [VehicleTypeStats.getFaultRate, h1, h2],
    fun h1 => by simp [VehicleTypeStats.getFaultRate, h1],
    fun h1 => by simp [VehicleTypeStats.getFaultRate, h1]⟩

theorem claim_C9_fault_rate_witness :
    VehicleTypeStats.getFaultRate exTS = (exTS.totalFaults : ℚ) / (exTS.vehicleCount : ℚ) :=
  (claim_C9_fault_rate exTS exTS).2.1 (by norm_num [exTS])

end EVTOL

namespace EVTOL

/-! ### Time accounting across one advance call -/

/-- Sum of the four time buckets of a statistics record
(flight + queued + charging + faulted). -/
def timeSum (s : VehicleStats) : ℚ :=
  s.flightTime + s.queuedTime + s.chargingTime + s.faultedTime

/-- The conditions under which the state machine's time accounting is
meaningful: positive profile constants, battery within bounds, and a
`Ready` vehicle has charge to take the automatic transition (as every
`Ready` vehicle produced by the constructor or by a full charge does). -/
def Inv (v : Vehicle) : Prop :=
  0 < v.batteryCapacity ∧ 0 < v.cruiseSpeed ∧ 0 < v.energyUsePerMile ∧
  0 < v.timeToCharge ∧ 0 ≤ v.batteryLevel ∧ v.batteryLevel ≤ v.batteryCapacity ∧
  (v.currentState = VState.Ready → 0 < v.batteryLevel)

/-- Upper bound on how many loop bodies can still run from a given state
(`Charging → Ready → Flying` is the longest zero-cost chain). -/
def rank : VState → ℕ
  | VState.Charging => 3
  | VState.Ready => 2
  | _ => 1

/-- `flyRun` does not change the profile constants. -/
theorem flyRun_profile (h : ℚ) (v : Vehicle) :
    (flyRun h v).2.cruiseSpeed = v.cruiseSpeed ∧
    (flyRun h v).2.batteryCapacity = v.batteryCapacity ∧
    (flyRun h v).2.timeToCharge = v.timeToCharge ∧
    (flyRun h v).2.energyUsePerMile = v.energyUsePerMile := by
  simp only [flyRun, checkFault]
  split_ifs <;> exact ⟨rfl, rfl, rfl, rfl⟩

/-- `chargeRun` does not change the profile constants. -/
theorem chargeRun_profile (h : ℚ) (v : Vehicle) :
    (chargeRun h v).2.cruiseSpeed = v.cruiseSpeed ∧
    (chargeRun h v).2.batteryCapacity = v.batteryCapacity ∧
    (chargeRun h v).2.timeToCharge = v.timeToCharge ∧
    (chargeRun h v).2.energyUsePerMile = v.energyUsePerMile := by
  simp only [chargeRun]
  split_ifs <;> exact ⟨rfl, rfl, rfl, rfl⟩

/-- The duration returned by `flyRun` is between `0` and the request. -/
theorem flyRun_dur (h : ℚ) (v : Vehicle) (hh : 0 < h)
    (hsp : 0 < v.cruiseSpeed) (hepm : 0 < v.energyUsePerMile)
    (hb0 : 0 ≤ v.batteryLevel) :
    0 ≤ (flyRun h v).1 ∧ (flyRun h v).1 ≤ h := by
  have hA0 : 0 ≤ v.batteryLevel / v.energyUsePerMile / v.cruiseSpeed := by positivity
  have hring : v.cruiseSpeed * h * v.energyUsePerMile =
      h * (v.energyUsePerMile * v.cruiseSpeed) := by ring
  simp only [flyRun, checkFault]
  rw [if_neg (not_le.mpr hh)]
  split_ifs with c1 c2 c3 c4 c5 <;> simp only []
  · -- battery-limited, fault
    have hAh : v.batteryLevel / v.energyUsePerMile / v.cruiseSpeed < h := by
      rw [div_div, div_lt_iff (by positivity)]
      linarith [hring ▸ c1]
    constructor <;> nlinarith
  · -- battery-limited, no fault
    have hAh : v.batteryLevel / v.energyUsePerMile / v.cruiseSpeed < h := by
      rw [div_div, div_lt_iff (by positivity)]
      linarith [hring ▸ c1]
    exact ⟨hA0, le_of_lt hAh⟩
  · -- battery-limited, zero flyable time
    have hAz : v.batteryLevel / v.energyUsePerMile / v.cruiseSpeed = 0 :=
      le_antisymm (not_lt.mp c2) hA0
    exact ⟨le_of_eq hAz.symm, by linarith [hAz]⟩
  · -- full-budget, fault
    constructor <;> linarith
  · exact ⟨le_of_lt hh, le_refl h⟩
  · exact ⟨le_of_lt hh, le_refl h⟩

end EVTOL

namespace EVTOL

/-- `flyRun` adds exactly the returned duration to the time buckets
(all of it to flight-time). -/
theorem flyRun_timeSum (h : ℚ) (v : Vehicle) (hh : 0 < h)
    (hsp : 0 < v.cruiseSpeed) (hepm : 0 < v.energyUsePerMile)
    (hb0 : 0 ≤ v.batteryLevel) :
    timeSum (flyRun h v).2.stepStats = timeSum v.stepStats + (flyRun h v).1 ∧
    timeSum (flyRun h v).2.totalStats = timeSum v.totalStats + (flyRun h v).1 := by
  have hA0 : 0 ≤ v.batteryLevel / v.energyUsePerMile / v.cruiseSpeed := by positivity
  simp only [flyRun, checkFault]
  rw [if_neg (not_le.mpr hh)]
  split_ifs with c1 c2 c3 c4 c5 <;>
    simp only [timeSum, accrue_stepStats, accrue_totalStats, setCurrentState_stepStats,
      setCurrentState_totalStats, setBatteryLevel_stepStats, setBatteryLevel_totalStats,
      VehicleStats.add, flightDelta, VehicleStats.zero]
  · constructor <;> ring
  · constructor <;> ring
  · have hAz : v.batteryLevel / v.energyUsePerMile / v.cruiseSpeed = 0 :=
      le_antisymm (not_lt.mp c2) hA0
    rw [hAz]
    constructor <;> ring
  · constructor <;> ring
  · constructor <;> ring
  · constructor <;> ring

/-- State outcome of `flyRun` on a `Flying` vehicle: it stays `Flying`
(only when the whole request was flown), lands `Queued`, or faults; a
fault credits half the flown segment and bumps the fault counter. -/
theorem flyRun_state (h : ℚ) (v : Vehicle) (hh : 0 < h)
    (hs : v.currentState = VState.Flying)
    (hsp : 0 < v.cruiseSpeed) (hepm : 0 < v.energyUsePerMile)
    (hb0 : 0 ≤ v.batteryLevel) :
    ((flyRun h v).2.currentState = VState.Flying → (flyRun h v).1 = h) ∧
    ((flyRun h v).2.currentState = VState.Flying ∨
     (flyRun h v).2.currentState = VState.Queued ∨
     (flyRun h v).2.currentState = VState.Faulted) ∧
    ((flyRun h v).2.currentState = VState.Faulted →
      2 * (flyRun h v).1 ≤ h ∧
      (flyRun h v).2.stepStats.faults = v.stepStats.faults + 1 ∧
      (flyRun h v).2.totalStats.faults = v.totalStats.faults + 1) ∧
    ((flyRun h v).2.currentState ≠ VState.Faulted →
      (flyRun h v).2.stepStats.faults = v.stepStats.faults ∧
      (flyRun h v).2.totalStats.faults = v.totalStats.faults) := by
  have hA0 : 0 ≤ v.batteryLevel / v.energyUsePerMile / v.cruiseSpeed := by positivity
  have hring : v.cruiseSpeed * h * v.energyUsePerMile =
      h * (v.energyUsePerMile * v.cruiseSpeed) := by ring
  simp only [flyRun, checkFault]
  rw [if_neg (not_le.mpr hh)]
  split_ifs with c1 c2 c3 c4 c5 <;>
    simp only [setCurrentState_currentState, setCurrentState_stepStats,
      setCurrentState_totalStats, setBatteryLevel_stepStats, setBatteryLevel_totalStats,
      setBatteryLevel_currentState, accrue_currentState, accrue_stepStats,
      accrue_totalStats, VehicleStats.add, flightDelta, VehicleStats.zero]
  · -- battery-limited fault
    have hAh : v.batteryLevel / v.energyUsePerMile / v.cruiseSpeed < h := by
      rw [div_div, div_lt_iff₀ (by positivity)]
      linarith [hring ▸ c1]
    refine ⟨by simp, by simp, fun _ => ⟨by linarith, by simp, by simp⟩, by simp⟩
  · -- battery-limited, no fault: lands Queued
    refine ⟨by simp, by simp, by simp, fun _ => ⟨by simp, by simp⟩⟩
  · -- zero flyable time: lands Queued
    refine ⟨by simp, by simp, by simp, fun _ => ⟨by simp, by simp⟩⟩
  · -- full-budget fault
    refine ⟨by simp, by simp, fun _ => ⟨by linarith, by simp, by simp⟩, by simp⟩
  · -- full flight, battery depleted to within epsilon: Queued
    refine ⟨by simp, by simp, by simp, fun _ => ⟨by simp, by simp⟩⟩
  · -- full flight, battery remains: state unchanged (= Flying)
    rw [hs]
    exact ⟨fun _ => by simp, by simp, by simp, fun _ => ⟨by simp, by simp⟩⟩

end EVTOL

namespace EVTOL

/-- Transfer `Inv` along an operation that keeps the profile constants
and battery bounds. -/
theorem Inv_transfer {v w : Vehicle}
    (h1 : w.cruiseSpeed = v.cruiseSpeed) (h2 : w.batteryCapacity = v.batteryCapacity)
    (h3 : w.timeToCharge = v.timeToCharge) (h4 : w.energyUsePerMile = v.energyUsePerMile)
    (hb : 0 ≤ w.batteryLevel ∧ w.batteryLevel ≤ w.batteryCapacity)
    (hready : w.currentState = VState.Ready → 0 < w.batteryLevel)
    (hI : Inv v) : Inv w := by
  obtain ⟨i1, i2, i3, i4, _, _, _⟩ := hI
  exact ⟨h2 ▸ i1, h1 ▸ i2, h4 ▸ i3, h3 ▸ i4, hb.1, hb.2, hready⟩

/-- Accounting facts for `chargeRun` on a positive budget: the time used
is `min(needed, rate*budget)/rate`, it is between 0 and the budget, it is
credited to the time buckets, no fault is recorded, and the vehicle
either reaches `Ready` with a full battery or keeps its state having
consumed the entire budget. -/
theorem chargeRun_account (h : ℚ) (v : Vehicle) (hh : 0 < h)
    (hs : v.currentState = VState.Charging)
    (hcap : 0 < v.batteryCapacity) (httc : 0 < v.timeToCharge)
    (hb0 : 0 ≤ v.batteryLevel) (hble : v.batteryLevel ≤ v.batteryCapacity) :
    0 ≤ (chargeRun h v).1 ∧ (chargeRun h v).1 ≤ h ∧
    timeSum (chargeRun h v).2.stepStats = timeSum v.stepStats + (chargeRun h v).1 ∧
    timeSum (chargeRun h v).2.totalStats = timeSum v.totalStats + (chargeRun h v).1 ∧
    (chargeRun h v).2.stepStats.faults = v.stepStats.faults ∧
    (chargeRun h v).2.totalStats.faults = v.totalStats.faults ∧
    ((chargeRun h v).2.currentState = VState.Ready ∨
     ((chargeRun h v).2.currentState = v.currentState ∧ (chargeRun h v).1 = h)) ∧
    ((chargeRun h v).2.currentState = VState.Ready →
      (chargeRun h v).2.batteryLevel = (chargeRun h v).2.batteryCapacity) := by
  have hrate : 0 < v.batteryCapacity / v.timeToCharge := by positivity
  have hadd0 : 0 ≤ min (v.batteryCapacity - v.batteryLevel)
      (v.batteryCapacity / v.timeToCharge * h) :=
    le_min (by linarith) (by positivity)
  have haddle : min (v.batteryCapacity - v.batteryLevel)
      (v.batteryCapacity / v.timeToCharge * h) ≤ v.batteryCapacity / v.timeToCharge * h :=
    min_le_right _ _
  have ht0 : 0 ≤ min (v.batteryCapacity - v.batteryLevel)
      (v.batteryCapacity / v.timeToCharge * h) / (v.batteryCapacity / v.timeToCharge) := by
    positivity
  have hth : min (v.batteryCapacity - v.batteryLevel)
      (v.batteryCapacity / v.timeToCharge * h) / (v.batteryCapacity / v.timeToCharge) ≤ h := by
    rw [div_le_iff₀ hrate]
    calc min (v.batteryCapacity - v.batteryLevel) (v.batteryCapacity / v.timeToCharge * h)
        ≤ v.batteryCapacity / v.timeToCharge * h := haddle
      _ = h * (v.batteryCapacity / v.timeToCharge) := by ring
  simp only [chargeRun]
  rw [if_neg (not_le.mpr hh)]
  split_ifs with c1 <;>
    simp only [timeSum, accrue_stepStats, accrue_totalStats, accrue_currentState,
      accrue_batteryLevel, accrue_batteryCapacity, setCurrentState_currentState,
      setCurrentState_stepStats, setCurrentState_totalStats, setCurrentState_batteryLevel,
      setCurrentState_batteryCapacity, setBatteryLevel_stepStats, setBatteryLevel_totalStats,
      setBatteryLevel_currentState, setBatteryLevel_batteryCapacity,
      VehicleStats.add, VehicleStats.zero]
  · -- battery reached capacity: transition to Ready
    refine ⟨ht0, hth, by ring, by ring, by simp, by simp, Or.inl (by simp), fun _ => ?_⟩
    have hcc : ¬ v.batteryCapacity < 0 := not_lt.mpr (le_of_lt hcap)
    simp [setBatteryLevel, hcc]
  · -- battery not yet full: the entire budget was consumed
    have hle2 : v.batteryLevel + min (v.batteryCapacity - v.batteryLevel)
        (v.batteryCapacity / v.timeToCharge * h) ≤ v.batteryCapacity := by
      have := min_le_left (v.batteryCapacity - v.batteryLevel)
        (v.batteryCapacity / v.timeToCharge * h)
      linarith
    have hcl : (setBatteryLevel (v.batteryLevel + min (v.batteryCapacity - v.batteryLevel)
        (v.batteryCapacity / v.timeToCharge * h)) v).batteryLevel =
        v.batteryLevel + min (v.batteryCapacity - v.batteryLevel)
          (v.batteryCapacity / v.timeToCharge * h) := by
      have h0 : ¬ (v.batteryLevel + min (v.batteryCapacity - v.batteryLevel)
          (v.batteryCapacity / v.timeToCharge * h) < 0) := by linarith
      simp only [setBatteryLevel, if_neg h0]
      rw [if_neg (not_lt.mpr hle2)]
    simp only [accrue_batteryLevel, accrue_batteryCapacity, setBatteryLevel_batteryCapacity,
      hcl] at c1
    refine ⟨ht0, hth, by ring, by ring, by simp, by simp, Or.inr ⟨by simp, ?_⟩, fun hcs => ?_⟩
    · -- time used equals the budget
      have hlt : min (v.batteryCapacity - v.batteryLevel)
          (v.batteryCapacity / v.timeToCharge * h) < v.batteryCapacity - v.batteryLevel := by
        by_contra hge
        exact c1 (by linarith [le_of_not_lt hge])
      have hmin : min (v.batteryCapacity - v.batteryLevel)
          (v.batteryCapacity / v.timeToCharge * h) = v.batteryCapacity / v.timeToCharge * h := by
        rcases min_cases (v.batteryCapacity - v.batteryLevel)
          (v.batteryCapacity / v.timeToCharge * h) with ⟨he, _⟩ | ⟨he, _⟩
        · exact absurd (he ▸ hlt) (lt_irrefl _)
        · exact he
      rw [hmin, mul_comm, mul_div_assoc, div_self (ne_of_gt hrate), mul_one]
    · -- the state here is unchanged, so it cannot be Ready when called on Charging
      rw [hs] at hcs
      exact absurd hcs (by decide)
end EVTOL

namespace EVTOL

@[simp] theorem timeSum_add (a b : VehicleStats) :
    timeSum (a.add b) = timeSum a + timeSum b := by
  simp only [timeSum, VehicleStats.add]; ring

@[simp] theorem timeSum_queuedDelta (t : ℚ) : timeSum (queuedDelta t) = t := by
  simp [timeSum, queuedDelta, VehicleStats.zero]

@[simp] theorem timeSum_faultedDelta (t : ℚ) : timeSum (faultedDelta t) = t := by
  simp [timeSum, faultedDelta, VehicleStats.zero]

@[simp] theorem faults_queuedDelta (t : ℚ) : (queuedDelta t).faults = 0 := rfl

@[simp] theorem faults_faultedDelta (t : ℚ) : (faultedDelta t).faults = 0 := rfl

@[simp] theorem faults_add (a b : VehicleStats) :
    (a.add b).faults = a.faults + b.faults := rfl

/-- Setting the battery to the capacity yields exactly the capacity when
the capacity is non-negative. -/
theorem setBatteryLevel_full (v : Vehicle) (hc : 0 ≤ v.batteryCapacity) :
    (setBatteryLevel v.batteryCapacity v).batteryLevel = v.batteryCapacity := by
  simp only [setBatteryLevel]
  rw [if_neg (not_lt.mpr hc), if_neg (lt_irrefl _)]

/-- Full accounting for one body of the `updateState` loop: the invariant
is preserved, the remaining time stays within `[0, r]`, the time consumed
is credited to the step buckets exactly unless a fault was recorded (in
which case at most that much is credited), the loop exits only with no
time left, and a continuation request strictly decreases the transition
rank. -/
theorem stepBody_account (r : ℚ) (v : Vehicle) (hr : 0 ≤ r) (hI : Inv v) :
    Inv (stepBody r v).2.2 ∧
    0 ≤ (stepBody r v).2.1 ∧
    timeSum (stepBody r v).2.2.stepStats + (stepBody r v).2.1 ≤ timeSum v.stepStats + r ∧
    ((stepBody r v).2.2.stepStats.faults = v.stepStats.faults →
      timeSum (stepBody r v).2.2.stepStats + (stepBody r v).2.1 = timeSum v.stepStats + r) ∧
    v.stepStats.faults ≤ (stepBody r v).2.2.stepStats.faults ∧
    ((stepBody r v).1 = false → (stepBody r v).2.1 = 0) ∧
    ((stepBody r v).1 = true → rank (stepBody r v).2.2.currentState + 1 ≤ rank v.currentState) := by
  obtain ⟨hcap, hsp, hepm, httc, hb0, hble, hrdy⟩ := hI
  cases hs : v.currentState with
  | Ready =>
    have hbpos : 0 < v.batteryLevel := hrdy hs
    simp only [stepBody, hs, if_pos hbpos]
    refine ⟨⟨hcap, hsp, hepm, httc, hb0, hble, fun hcs => ?_⟩,
      hr, le_refl _, fun _ => by simp, le_refl _,
      fun hc => Bool.noConfusion hc, fun _ => by rw [setCurrentState_currentState]; decide⟩
    rw [setCurrentState_currentState] at hcs
    exact absurd hcs (by decide)
  | Flying =>
    by_cases hrpos : 0 < r
    case neg =>
      have hr0 : r = 0 := le_antisymm (not_lt.mp hrpos) hr
      simp only [stepBody, hs, if_neg hrpos]
      exact ⟨⟨hcap, hsp, hepm, httc, hb0, hble, hrdy⟩, hr, le_refl _, fun _ => by simp,
        le_refl _, fun _ => hr0, fun hc => Bool.noConfusion hc⟩
    case pos =>
      have hdur := flyRun_dur r v hrpos hsp hepm hb0
      have hts := (flyRun_timeSum r v hrpos hsp hepm hb0).1
      have hst := flyRun_state r v hrpos hs hsp hepm hb0
      have hbi := flyRun_batteryInv r v (le_of_lt hcap) ⟨hb0, hble⟩
      have hpr := flyRun_profile r v
      have hIF : ∀ w : Vehicle, w.cruiseSpeed = (flyRun r v).2.cruiseSpeed →
          w.batteryCapacity = (flyRun r v).2.batteryCapacity →
          w.timeToCharge = (flyRun r v).2.timeToCharge →
          w.energyUsePerMile = (flyRun r v).2.energyUsePerMile →
          w.batteryLevel = (flyRun r v).2.batteryLevel →
          (w.currentState = VState.Ready → 0 < w.batteryLevel) → Inv w := by
        intro w e1 e2 e3 e4 e5 hready
        refine ⟨?_, ?_, ?_, ?_, ?_, ?_, hready⟩
        · rw [e2, hpr.2.1]; exact hcap
        · rw [e1, hpr.1]; exact hsp
        · rw [e4, hpr.2.2.2]; exact hepm
        · rw [e3, hpr.2.2.1]; exact httc
        · rw [e5]; exact hbi.1.1
        · rw [e5, e2]; exact hbi.1.2
      simp only [stepBody, hs, if_pos hrpos]
      by_cases hq : (flyRun r v).2.currentState = VState.Queued ∧ 0 < r - (flyRun r v).1
      · simp only [if_pos hq]
        have hfaq : (flyRun r v).2.stepStats.faults = v.stepStats.faults :=
          (hst.2.2.2 (by rw [hq.1]; decide)).1
        refine ⟨hIF _ rfl rfl rfl rfl rfl (fun hcs => ?_), le_refl _, ?_, fun _ => ?_, ?_,
          fun _ => by simp, fun hc => Bool.noConfusion hc⟩
        · simp only [accrue_currentState] at hcs
          rw [hq.1] at hcs
          exact absurd hcs (by decide)
        · simp only [accrue_stepStats, timeSum_add, timeSum_queuedDelta]
          linarith [hts]
        · simp only [accrue_stepStats, timeSum_add, timeSum_queuedDelta]
          linarith [hts]
        · simp only [accrue_stepStats, faults_add, faults_queuedDelta, hfaq]
          omega
      · by_cases hf : (flyRun r v).2.currentState = VState.Faulted
        · simp only [if_neg hq, if_pos hf]
          have hfl := hst.2.2.1 hf
          refine ⟨hIF _ rfl rfl rfl rfl rfl (fun hcs => ?_), le_refl _, ?_, fun hcs => ?_, ?_,
            fun _ => by simp, fun hc => Bool.noConfusion hc⟩
          · simp only [accrue_currentState] at hcs
            rw [hf] at hcs
            exact absurd hcs (by decide)
          · simp only [accrue_stepStats, timeSum_add, timeSum_faultedDelta]
            linarith [hts, hfl.1, hdur.1]
          · simp only [accrue_stepStats, faults_add, faults_faultedDelta, hfl.2.1] at hcs
            omega
          · simp only [accrue_stepStats, faults_add, faults_faultedDelta, hfl.2.1]
            omega
        · simp only [if_neg hq, if_neg hf]
          have hfaq := (hst.2.2.2 hf).1
          have hzero : r - (flyRun r v).1 = 0 := by
            rcases hst.2.1 with hFly | hQ | hFd
            · rw [hst.1 hFly]; ring
            · have := not_and.mp hq hQ
              linarith [hdur.2, not_lt.mp this]
            · exact absurd hFd hf
          refine ⟨hIF _ rfl rfl rfl rfl rfl (fun hcs => ?_), by linarith [hdur.2],
            by linarith [hts], fun _ => by linarith [hts], le_of_eq hfaq.symm,
            fun _ => hzero, fun hc => Bool.noConfusion hc⟩
          rcases hst.2.1 with hFly | hQ | hFd
          · rw [hcs] at hFly; exact absurd hFly (by decide)
          · rw [hcs] at hQ; exact absurd hQ (by decide)
          · exact absurd hFd hf
  | Charging =>
    by_cases hrpos : 0 < r
    case pos =>
      have hch := chargeRun_account r v hrpos hs hcap httc hb0 hble
      have hbi := chargeRun_batteryInv r v (le_of_lt hcap) ⟨hb0, hble⟩
      have hpr := chargeRun_profile r v
      simp only [stepBody, hs, if_pos hrpos]
      refine ⟨?_, by linarith [hch.1, hch.2.1], ?_, fun _ => ?_, ?_, fun hc => ?_, fun hc => ?_⟩
      · refine ⟨?_, ?_, ?_, ?_, hbi.1.1, hbi.1.2, fun hcs => ?_⟩
        · rw [hpr.2.1]; exact hcap
        · rw [hpr.1]; exact hsp
        · rw [hpr.2.2.2]; exact hepm
        · rw [hpr.2.2.1]; exact httc
        · rw [hch.2.2.2.2.2.2.2 hcs, hpr.2.1]; exact hcap
      · linarith [hch.2.2.1]
      · linarith [hch.2.2.1]
      · exact le_of_eq (hch.2.2.2.2.1).symm
      · -- loop exit: the whole budget was consumed
        simp only [decide_eq_false_iff_not] at hc
        rcases hch.2.2.2.2.2.2.1 with hrdy2 | ⟨_, hteq⟩
        · exact absurd hrdy2 hc
        · rw [hteq]; ring
      · -- continuation: the charge completed and left the vehicle Ready
        simp only [decide_eq_true_eq] at hc
        rw [hc]
        decide
    case neg =>
      by_cases hfull : v.batteryLevel ≥ v.batteryCapacity
      · simp only [stepBody, hs, if_neg hrpos, if_pos hfull]
        have hlev := setBatteryLevel_full v (le_of_lt hcap)
        refine ⟨⟨hcap, hsp, hepm, httc, ?_, ?_, fun _ => ?_⟩, hr, le_refl _, fun _ => by simp,
          le_refl _, fun hc => Bool.noConfusion hc,
          fun _ => by rw [setCurrentState_currentState]; decide⟩
        · simp only [setCurrentState_batteryLevel]
          rw [hlev]; exact le_of_lt hcap
        · simp only [setCurrentState_batteryLevel, setCurrentState_batteryCapacity,
            setBatteryLevel_batteryCapacity]
          rw [hlev]
        · simp only [setCurrentState_batteryLevel]
          rw [hlev]; exact hcap
      · simp only [stepBody, hs, if_neg hrpos, if_neg hfull]
        exact ⟨⟨hcap, hsp, hepm, httc, hb0, hble, hrdy⟩, hr, le_refl _, fun _ => by simp,
          le_refl _, fun _ => le_antisymm (not_lt.mp hrpos) hr, fun hc => Bool.noConfusion hc⟩
  | Queued =>
    by_cases hrpos : 0 < r
    · simp only [stepBody, hs, if_pos hrpos]
      refine ⟨⟨hcap, hsp, hepm, httc, hb0, hble, fun hcs => ?_⟩, le_refl _, ?_, fun _ => ?_,
        ?_, fun _ => by simp, fun hc => Bool.noConfusion hc⟩
      · simp only [accrue_currentState] at hcs
        rw [hs] at hcs
        exact absurd hcs (by decide)
      · simp only [accrue_stepStats, timeSum_add, timeSum_queuedDelta]
        linarith
      · simp only [accrue_stepStats, timeSum_add, timeSum_queuedDelta]
        ring
      · simp only [accrue_stepStats, faults_add, faults_queuedDelta]
        omega
    · simp only [stepBody, hs, if_neg hrpos]
      exact ⟨⟨hcap, hsp, hepm, httc, hb0, hble, hrdy⟩, hr, le_refl _, fun _ => by simp,
        le_refl _, fun _ => le_antisymm (not_lt.mp hrpos) hr, fun hc => Bool.noConfusion hc⟩
  | Faulted =>
    simp only [stepBody, hs]
    refine ⟨⟨hcap, hsp, hepm, httc, hb0, hble, fun hcs => ?_⟩,
      le_refl _, ?_, fun _ => ?_, ?_, fun _ => by simp, fun hc => Bool.noConfusion hc⟩
    · rw [setCurrentState_currentState] at hcs
      exact absurd hcs (by decide)
    · simp only [setCurrentState_stepStats, accrue_stepStats, timeSum_add, timeSum_faultedDelta]
      linarith
    · simp only [setCurrentState_stepStats, accrue_stepStats, timeSum_add, timeSum_faultedDelta]
      ring
    · simp only [setCurrentState_stepStats, accrue_stepStats, faults_add, faults_faultedDelta]
      omega

end EVTOL

namespace EVTOL

theorem rank_le_three (s : VState) : rank s ≤ 3 := by cases s <;> decide

theorem rank_pos (s : VState) : 1 ≤ rank s := by cases s <;> decide

/-- Accounting across the whole transition loop: with enough fuel for the
remaining zero-cost chain, the step time buckets absorb at most the
budget, and exactly the budget when no fault is recorded during the
loop. -/
theorem goLoop_account (n : ℕ) (r : ℚ) (v : Vehicle) (hr : 0 ≤ r) (hI : Inv v)
    (hn : rank v.currentState ≤ n) :
    Inv (goLoop n r v) ∧
    timeSum (goLoop n r v).stepStats ≤ timeSum v.stepStats + r ∧
    ((goLoop n r v).stepStats.faults = v.stepStats.faults →
      timeSum (goLoop n r v).stepStats = timeSum v.stepStats + r) ∧
    v.stepStats.faults ≤ (goLoop n r v).stepStats.faults := by
  induction n generalizing r v with
  | zero => exact absurd hn (by have := rank_pos v.currentState; omega)
  | succ n ih =>
    simp only [goLoop, if_neg (not_lt.mpr hr)]
    have hsb := stepBody_account r v hr hI
    by_cases hcont : (stepBody r v).1 = true
    · simp only [if_pos hcont]
      have hrank := hsb.2.2.2.2.2.2 hcont
      have hn2 : rank (stepBody r v).2.2.currentState ≤ n := by omega
      have ih2 := ih (stepBody r v).2.1 (stepBody r v).2.2 hsb.2.1 hsb.1 hn2
      refine ⟨ih2.1, by linarith [ih2.2.1, hsb.2.2.1], fun hfe => ?_, ?_⟩
      · have hmono1 := hsb.2.2.2.2.1
        have hmono2 := ih2.2.2.2
        have hf1 : (stepBody r v).2.2.stepStats.faults = v.stepStats.faults := by omega
        have heq1 := hsb.2.2.2.1 hf1
        have heq2 := ih2.2.2.1 (by omega)
        linarith
      · exact le_trans hsb.2.2.2.2.1 ih2.2.2.2
    · simp only [if_neg hcont]
      have hz := hsb.2.2.2.2.2.1 ((Bool.not_eq_true _).mp hcont)
      refine ⟨hsb.1, by linarith [hsb.2.2.1, hz.le, hz.ge], fun hfe => ?_, hsb.2.2.2.2.1⟩
      have := hsb.2.2.2.1 hfe
      linarith [hz.le, hz.ge]

/-- C2 as amended.  For every vehicle satisfying the operating invariant
and every non-negative budget, one advance call accounts at most the
requested delta across the four step-time buckets, with exact equality
whenever no fault is recorded during the call; a fault during a
battery-limited flight segment loses the unflyable remainder of the
budget (only half the flyable duration is credited to flight-time and an
equal amount to faulted-time), so the sum can fall short of the delta. -/
theorem claim_C2_time_accounting (v : Vehicle) (h : ℚ) (hh : 0 ≤ h) (hI : Inv v) :
    timeSum (updateState h v).stepStats ≤ h ∧
    ((updateState h v).stepStats.faults = 0 → timeSum (updateState h v).stepStats = h) := by
  have hIr : Inv (resetStep v) := hI
  have hrank : rank (resetStep v).currentState ≤ 4 :=
    le_trans (rank_le_three _) (by omega)
  have hg := goLoop_account 4 h (resetStep v) hh hIr hrank
  have hz : timeSum (resetStep v).stepStats = 0 := by
    simp [timeSum, VehicleStats.zero]
  have hfz : (resetStep v).stepStats.faults = 0 := rfl
  refine ⟨?_, fun hf => ?_⟩
  · have := hg.2.1
    rw [hz] at this
    simpa [updateState] using this
  · have := hg.2.2.1 (by rw [hfz]; exact hf)
    rw [hz] at this
    simpa [updateState] using this

theorem claim_C2_time_accounting_witness :
    timeSum (updateState 1 exPlainV).stepStats ≤ 1 ∧
    ((updateState 1 exPlainV).stepStats.faults = 0 →
      timeSum (updateState 1 exPlainV).stepStats = 1) :=
  claim_C2_time_accounting exPlainV 1 (by norm_num)
    ⟨by norm_num [exPlainV, mkVehicle], by norm_num [exPlainV, mkVehicle],
     by norm_num [exPlainV, mkVehicle], by norm_num [exPlainV, mkVehicle],
     by norm_num [exPlainV, mkVehicle], by norm_num [exPlainV, mkVehicle],
     fun _ => by norm_num [exPlainV, mkVehicle]⟩

/-- C2 counterexample for the claim as stated: a `Flying` vehicle whose
battery sustains only 1 hour, advanced by 2 hours with a fault reported,
accumulates step buckets summing to 1, not 2, although no zero-cost
automatic transition is involved (the call runs `Flying → Faulted`). -/
theorem claim_C2_counterexample :
    exFaultV.currentState = VState.Flying ∧
    (updateState 2 exFaultV).currentState = VState.Faulted ∧
    timeSum (updateState 2 exFaultV).stepStats = 1 ∧ (1 : ℚ) ≠ 2 := by
  refine ⟨rfl, ?_, ?_, by norm_num⟩ <;>
    norm_num +decide [updateState, goLoop, resetStep, stepBody, flyRun, checkFault, accrue,
      setBatteryLevel, setCurrentState, flightDelta, VehicleStats.add, VehicleStats.zero,
      EPSILON, exFaultV, mkVehicle, queuedDelta, faultedDelta, timeSum]

end EVTOL

namespace EVTOL

/-- `setBatteryLevel` is the identity on levels already within
`[0, capacity]`. -/
theorem setBatteryLevel_id (l : ℚ) (v : Vehicle) (h0 : 0 ≤ l)
    (hle : l ≤ v.batteryCapacity) : (setBatteryLevel l v).batteryLevel = l := by
  simp only [setBatteryLevel]
  rw [if_neg (not_lt.mpr h0), if_neg (not_lt.mpr hle)]

/-- Evaluation of `flyRun` when the fault trial reports a fault: exactly
half of the flyable duration `a` (the lesser of the request and what the
battery sustains) is credited to flight time, distance, passenger miles
and battery drain, the fault counters increment, and the vehicle is left
`Faulted`. -/
theorem flyRun_fault_eval (h a : ℚ) (v : Vehicle) (hh : 0 < h)
    (hsp : 0 < v.cruiseSpeed) (hepm : 0 < v.energyUsePerMile)
    (hb : 0 < v.batteryLevel) (hble : v.batteryLevel ≤ v.batteryCapacity)
    (hrng : ∀ p, v.rngSeq v.rngIdx p = true)
    (ha : a = if v.cruiseSpeed * h * v.energyUsePerMile > v.batteryLevel
              then v.batteryLevel / v.energyUsePerMile / v.cruiseSpeed else h) :
    (flyRun h v).1 = a / 2 ∧
    (flyRun h v).2.currentState = VState.Faulted ∧
    (flyRun h v).2.batteryLevel =
      v.batteryLevel - v.cruiseSpeed * (a / 2) * v.energyUsePerMile ∧
    (flyRun h v).2.stepStats.flightTime = v.stepStats.flightTime + a / 2 ∧
    (flyRun h v).2.stepStats.distanceTraveled =
      v.stepStats.distanceTraveled + v.cruiseSpeed * (a / 2) ∧
    (flyRun h v).2.stepStats.passengerMiles =
      v.stepStats.passengerMiles + v.cruiseSpeed * (a / 2) * (v.passengerCount : ℚ) ∧
    (flyRun h v).2.stepStats.faults = v.stepStats.faults + 1 ∧
    (flyRun h v).2.stepStats.queuedTime = v.stepStats.queuedTime ∧
    (flyRun h v).2.stepStats.chargingTime = v.stepStats.chargingTime ∧
    (flyRun h v).2.stepStats.faultedTime = v.stepStats.faultedTime ∧
    (flyRun h v).2.totalStats.flightTime = v.totalStats.flightTime + a / 2 ∧
    (flyRun h v).2.totalStats.distanceTraveled =
      v.totalStats.distanceTraveled + v.cruiseSpeed * (a / 2) ∧
    (flyRun h v).2.totalStats.passengerMiles =
      v.totalStats.passengerMiles + v.cruiseSpeed * (a / 2) * (v.passengerCount : ℚ) ∧
    (flyRun h v).2.totalStats.faults = v.totalStats.faults + 1 ∧
    (flyRun h v).2.totalStats.faultedTime = v.totalStats.faultedTime := by
  have hsp' := hsp.ne'
  have hepm' := hepm.ne'
  simp only [flyRun, checkFault]
  rw [if_neg (not_le.mpr hh)]
  by_cases hc1 : v.cruiseSpeed * h * v.energyUsePerMile > v.batteryLevel
  · rw [if_pos hc1] at ha
    subst ha
    have hA : 0 < v.batteryLevel / v.energyUsePerMile / v.cruiseSpeed := by positivity
    rw [if_pos hc1, if_pos hA, if_pos (hrng _)]
    have key : v.cruiseSpeed * (v.batteryLevel / v.energyUsePerMile / v.cruiseSpeed * (1/2)) *
        v.energyUsePerMile = v.batteryLevel / 2 := by
      field_simp
      ring
    have hmax : max 0 (v.batteryLevel - v.cruiseSpeed *
        (v.batteryLevel / v.energyUsePerMile / v.cruiseSpeed * (1/2)) * v.energyUsePerMile) =
        v.batteryLevel / 2 := by
      rw [key]
      rw [max_eq_right (by linarith)]
      ring
    have hlev := setBatteryLevel_id (v.batteryLevel / 2)
      (accrue (flightDelta (v.batteryLevel / v.energyUsePerMile / v.cruiseSpeed * (1/2))
        (v.cruiseSpeed * (v.batteryLevel / v.energyUsePerMile / v.cruiseSpeed * (1/2)))
        v.passengerCount) { v with rngIdx := v.rngIdx + 1 })
      (by linarith) (by simp only [accrue_batteryCapacity]; linarith)
    simp only [setCurrentState_currentState, setCurrentState_batteryLevel,
      setCurrentState_stepStats, setCurrentState_totalStats, accrue_stepStats,
      accrue_totalStats, accrue_batteryLevel, accrue_batteryCapacity,
      setBatteryLevel_stepStats, setBatteryLevel_totalStats, hmax]
    refine ⟨by ring, by simp, ?_, ?_, ?_, ?_, ?_, ?_, ?_, ?_, ?_, ?_, ?_, ?_, ?_⟩ <;>
      first
        | (rw [hlev]; field_simp; ring)
        | (simp only [VehicleStats.add, flightDelta, VehicleStats.zero]; push_cast; ring)
        | simp [VehicleStats.add, flightDelta, VehicleStats.zero]
  · rw [if_neg hc1] at ha
    subst ha
    have hen : v.cruiseSpeed * a * v.energyUsePerMile ≤ v.batteryLevel := not_lt.mp hc1
    have key2 : v.cruiseSpeed * (a * (1/2)) * v.energyUsePerMile =
        v.cruiseSpeed * a * v.energyUsePerMile / 2 := by ring
    rw [if_neg hc1, if_pos (hrng _)]
    have henpos : 0 < v.cruiseSpeed * a * v.energyUsePerMile := by positivity
    have hlev := setBatteryLevel_id
      (v.batteryLevel - v.cruiseSpeed * (a * (1/2)) * v.energyUsePerMile)
      (accrue (flightDelta (a * (1/2)) (v.cruiseSpeed * (a * (1/2))) v.passengerCount)
        { v with rngIdx := v.rngIdx + 1 })
      (by rw [key2]; linarith) (by simp only [accrue_batteryCapacity]; rw [key2]; linarith)
    simp only [setCurrentState_currentState, setCurrentState_batteryLevel,
      setCurrentState_stepStats, setCurrentState_totalStats, accrue_stepStats,
      accrue_totalStats, accrue_batteryLevel, setBatteryLevel_stepStats,
      setBatteryLevel_totalStats]
    refine ⟨by ring, by simp, ?_, ?_, ?_, ?_, ?_, ?_, ?_, ?_, ?_, ?_, ?_, ?_, ?_⟩ <;>
      first
        | (rw [hlev]; ring)
        | (rw [hlev]; field_simp; ring)
        | (simp only [VehicleStats.add, flightDelta, VehicleStats.zero]; push_cast; ring)
        | simp [VehicleStats.add, flightDelta, VehicleStats.zero]

end EVTOL

namespace EVTOL

/-- When the flight segment of an advance call faults, the loop credits
the flown time (`timeUsed`, the half-duration) to faulted-time, zeroes
the remaining budget and stops: the whole call reduces to the `flyRun`
result plus that faulted-time accrual. -/
theorem updateState_flying_fault (h : ℚ) (v : Vehicle)
    (hs : v.currentState = VState.Flying) (hh : 0 < h)
    (hf : (flyRun h (resetStep v)).2.currentState = VState.Faulted) :
    updateState h v =
      accrue (faultedDelta (flyRun h (resetStep v)).1) (flyRun h (resetStep v)).2 := by
  have hs2 : (resetStep v).currentState = VState.Flying := hs
  have hnq : ¬ ((flyRun h (resetStep v)).2.currentState = VState.Queued ∧
      0 < h - (flyRun h (resetStep v)).1) := by
    rintro ⟨hq, _⟩
    rw [hf] at hq
    exact absurd hq (by decide)
  unfold updateState
  simp only [goLoop, if_neg (not_lt.mpr (le_of_lt hh)), stepBody, hs2, if_pos hh,
    if_neg hnq, if_pos hf]
  simp

/-- C1 as amended.  For every `Flying` vehicle with charge and a positive
budget whose fault trial succeeds, exactly half of the actually-flyable
duration `a` (the lesser of the request and the battery-sustainable
duration) is credited as energy, distance, passenger-distance and
flight-time, the fault counter increments, the vehicle transitions to
`Faulted` — and the faulted-time bucket receives that same flown half
`a/2` (not the call's remaining budget `h - a/2`; the two agree only when
the whole request was flyable, i.e. `a = h`; the rest of the budget is
discarded). -/
theorem claim_C1_fault_midpoint (v : Vehicle) (h a : ℚ)
    (hs : v.currentState = VState.Flying) (hh : 0 < h) (hI : Inv v)
    (hb : 0 < v.batteryLevel)
    (hrng : ∀ p, v.rngSeq v.rngIdx p = true)
    (ha : a = if v.cruiseSpeed * h * v.energyUsePerMile > v.batteryLevel
              then v.batteryLevel / v.energyUsePerMile / v.cruiseSpeed else h) :
    (updateState h v).currentState = VState.Faulted ∧
    (updateState h v).stepStats.flightTime = a / 2 ∧
    (updateState h v).stepStats.distanceTraveled = v.cruiseSpeed * (a / 2) ∧
    (updateState h v).stepStats.passengerMiles =
      v.cruiseSpeed * (a / 2) * (v.passengerCount : ℚ) ∧
    (updateState h v).stepStats.faults = 1 ∧
    (updateState h v).batteryLevel =
      v.batteryLevel - v.cruiseSpeed * (a / 2) * v.energyUsePerMile ∧
    (updateState h v).stepStats.faultedTime = a / 2 ∧
    (updateState h v).stepStats.queuedTime = 0 ∧
    (updateState h v).stepStats.chargingTime = 0 ∧
    (updateState h v).totalStats.flightTime = v.totalStats.flightTime + a / 2 ∧
    (updateState h v).totalStats.faults = v.totalStats.faults + 1 ∧
    (updateState h v).totalStats.faultedTime = v.totalStats.faultedTime + a / 2 := by
  obtain ⟨hcap, hsp, hepm, httc, hb0, hble, hrdy⟩ := hI
  have hev := flyRun_fault_eval h a (resetStep v) hh hsp hepm hb hble hrng ha
  have hun := updateState_flying_fault h v hs hh hev.2.1
  rw [hun]
  simp only [accrue_currentState, accrue_stepStats, accrue_batteryLevel, accrue_totalStats,
    VehicleStats.add, faultedDelta, VehicleStats.zero]
  refine ⟨hev.2.1, ?_, ?_, ?_, ?_, ?_, ?_, ?_, ?_, ?_, ?_, ?_⟩
  · rw [hev.2.2.2.1]; simp [VehicleStats.zero, resetStep]
  · rw [hev.2.2.2.2.1]; simp [VehicleStats.zero, resetStep]
  · rw [hev.2.2.2.2.2.1]; simp [VehicleStats.zero, resetStep]
  · rw [hev.2.2.2.2.2.2.1]; simp [VehicleStats.zero, resetStep]
  · rw [hev.2.2.1]; simp [resetStep]
  · rw [hev.2.2.2.2.2.2.2.2.2.1, hev.1]
    simp [VehicleStats.zero, resetStep]
  · rw [hev.2.2.2.2.2.2.2.1]; simp [VehicleStats.zero, resetStep]
  · rw [hev.2.2.2.2.2.2.2.2.1]; simp [VehicleStats.zero, resetStep]
  · rw [hev.2.2.2.2.2.2.2.2.2.2.1]; simp [resetStep]
  · rw [hev.2.2.2.2.2.2.2.2.2.2.2.2.2.1]; simp [resetStep]
  · rw [hev.2.2.2.2.2.2.2.2.2.2.2.2.2.2, hev.1]
    simp [resetStep]

/-- C1 counterexample for the claim as stated: with battery for one hour
and a two-hour request under a forced fault, the remaining requested
budget is 2 - 1/2 = 3/2 hours, but only the flown half-hour is attributed
to faulted-time. -/
theorem claim_C1_counterexample :
    (updateState 2 exFaultV).stepStats.faultedTime = 1/2 ∧
    2 - (updateState 2 exFaultV).stepStats.flightTime = 3/2 ∧
    ((1:ℚ)/2) ≠ 3/2 := by
  refine ⟨?_, ?_, by norm_num⟩ <;>
    norm_num +decide [updateState, goLoop, resetStep, stepBody, flyRun, checkFault, accrue,
      setBatteryLevel, setCurrentState, flightDelta, VehicleStats.add, VehicleStats.zero,
      EPSILON, exFaultV, mkVehicle, queuedDelta, faultedDelta]

theorem claim_C1_fault_midpoint_witness :
    (updateState 2 exFaultV).currentState = VState.Faulted ∧
    (updateState 2 exFaultV).stepStats.flightTime = 1 / 2 :=
  have hmain := claim_C1_fault_midpoint exFaultV 2 1
    (by decide) (by norm_num)
    ⟨by norm_num [exFaultV, mkVehicle], by norm_num [exFaultV, mkVehicle],
     by norm_num [exFaultV, mkVehicle], by norm_num [exFaultV, mkVehicle],
     by norm_num [exFaultV, mkVehicle], by norm_num [exFaultV, mkVehicle],
     fun hcs => absurd hcs (by decide)⟩
    (by norm_num [exFaultV, mkVehicle]) (fun p => rfl)
    (by norm_num [exFaultV, mkVehicle])
  ⟨hmain.1, hmain.2.1⟩

end EVTOL

namespace EVTOL

/-- Evaluation of `chargeRun` on a positive budget: the explicit charging
arithmetic of `Vehicle::charge` (rate = capacity/fullChargeTime,
added energy = min(needed, rate*budget), time used = added/rate). -/
theorem chargeRun_eval (h : ℚ) (v : Vehicle) (hh : 0 < h)
    (hcap : 0 < v.batteryCapacity) (httc : 0 < v.timeToCharge)
    (hb0 : 0 ≤ v.batteryLevel) (hble : v.batteryLevel ≤ v.batteryCapacity) :
    (chargeRun h v).1 = min (v.batteryCapacity - v.batteryLevel)
      (v.batteryCapacity / v.timeToCharge * h) / (v.batteryCapacity / v.timeToCharge) ∧
    (chargeRun h v).2.batteryLevel = v.batteryLevel +
      min (v.batteryCapacity - v.batteryLevel) (v.batteryCapacity / v.timeToCharge * h) ∧
    (chargeRun h v).2.stepStats.chargingTime =
      v.stepStats.chargingTime + (chargeRun h v).1 ∧
    (chargeRun h v).2.totalStats.chargingTime =
      v.totalStats.chargingTime + (chargeRun h v).1 ∧
    (v.batteryCapacity - v.batteryLevel ≤ v.batteryCapacity / v.timeToCharge * h →
      (chargeRun h v).2.currentState = VState.Ready) := by
  have hrate : 0 < v.batteryCapacity / v.timeToCharge := by positivity
  have hadd0 : 0 ≤ min (v.batteryCapacity - v.batteryLevel)
      (v.batteryCapacity / v.timeToCharge * h) :=
    le_min (by linarith) (by positivity)
  have hle2 : v.batteryLevel + min (v.batteryCapacity - v.batteryLevel)
      (v.batteryCapacity / v.timeToCharge * h) ≤ v.batteryCapacity := by
    have := min_le_left (v.batteryCapacity - v.batteryLevel)
      (v.batteryCapacity / v.timeToCharge * h)
    linarith
  have hcl : (setBatteryLevel (v.batteryLevel + min (v.batteryCapacity - v.batteryLevel)
      (v.batteryCapacity / v.timeToCharge * h)) v).batteryLevel =
      v.batteryLevel + min (v.batteryCapacity - v.batteryLevel)
        (v.batteryCapacity / v.timeToCharge * h) := by
    have h0 : ¬ (v.batteryLevel + min (v.batteryCapacity - v.batteryLevel)
        (v.batteryCapacity / v.timeToCharge * h) < 0) := by linarith
    simp only [setBatteryLevel, if_neg h0]
    rw [if_neg (not_lt.mpr hle2)]
  simp only [chargeRun]
  rw [if_neg (not_le.mpr hh)]
  split_ifs with c1
  · -- battery reached capacity
    simp only [accrue_batteryLevel, accrue_batteryCapacity,
      setBatteryLevel_batteryCapacity, hcl] at c1
    have hfull : v.batteryLevel + min (v.batteryCapacity - v.batteryLevel)
        (v.batteryCapacity / v.timeToCharge * h) = v.batteryCapacity :=
      le_antisymm hle2 c1
    have hlev2 : (setBatteryLevel v.batteryCapacity (accrue { VehicleStats.zero with
        chargingTime := min (v.batteryCapacity - v.batteryLevel)
          (v.batteryCapacity / v.timeToCharge * h) / (v.batteryCapacity / v.timeToCharge) }
        (setBatteryLevel (v.batteryLevel + min (v.batteryCapacity - v.batteryLevel)
          (v.batteryCapacity / v.timeToCharge * h)) v))).batteryLevel = v.batteryCapacity := by
      apply setBatteryLevel_id
      · linarith
      · simp only [accrue_batteryCapacity, setBatteryLevel_batteryCapacity]
        exact le_refl _
    refine ⟨rfl, ?_, ?_, ?_, fun _ => rfl⟩
    · simp only [setCurrentState_batteryLevel, accrue_batteryCapacity,
        setBatteryLevel_batteryCapacity]
      rw [hlev2, hfull]
    · simp [setCurrentState_stepStats, setBatteryLevel_stepStats, accrue_stepStats,
        VehicleStats.add, VehicleStats.zero]
    · simp [setCurrentState_totalStats, setBatteryLevel_totalStats, accrue_totalStats,
        VehicleStats.add, VehicleStats.zero]
  · -- battery still below capacity
    simp only [accrue_batteryLevel, accrue_batteryCapacity,
      setBatteryLevel_batteryCapacity, hcl] at c1
    refine ⟨rfl, hcl, ?_, ?_, fun hneed => ?_⟩
    · simp [accrue_stepStats, setBatteryLevel_stepStats, VehicleStats.add, VehicleStats.zero]
    · simp [accrue_totalStats, setBatteryLevel_totalStats, VehicleStats.add, VehicleStats.zero]
    · exfalso
      apply c1
      rw [min_eq_left hneed]
      linarith
end EVTOL

namespace EVTOL

/-- C4.  Charging behaviour of one advance call.  (a) With the battery
below capacity and a positive budget, `charge` (invoked by the advance
loop with the full remaining budget) adds min(needed, rate × budget) to
the battery where rate = capacity ÷ fullChargeTime, credits
added-energy ÷ rate to charging-time, and leaves the vehicle `Ready`
when the needed energy fit in the budget; (b) within the same advance
call the loop then continues processing the leftover budget from the
charged vehicle exactly when it reached `Ready`; (c) a `Charging`
vehicle advanced with a zero budget whose battery is already at capacity
takes the pending `Ready` transition (and, `Ready` being automatic with
a charged battery, ends the call `Flying` with a full battery). -/
theorem claim_C4_charging (v : Vehicle) (h : ℚ)
    (hs : v.currentState = VState.Charging) (hI : Inv v) :
    (0 < h → v.batteryLevel < v.batteryCapacity →
      charge h v = Except.ok (chargeRun h v) ∧
      (chargeRun h v).1 = min (v.batteryCapacity - v.batteryLevel)
        (v.batteryCapacity / v.timeToCharge * h) / (v.batteryCapacity / v.timeToCharge) ∧
      (chargeRun h v).2.batteryLevel = v.batteryLevel + min (v.batteryCapacity - v.batteryLevel)
        (v.batteryCapacity / v.timeToCharge * h) ∧
      (chargeRun h v).2.stepStats.chargingTime =
        v.stepStats.chargingTime + (chargeRun h v).1 ∧
      (v.batteryCapacity - v.batteryLevel ≤ v.batteryCapacity / v.timeToCharge * h →
        (chargeRun h v).2.currentState = VState.Ready)) ∧
    (0 < h → updateState h v =
      (if (chargeRun h (resetStep v)).2.currentState = VState.Ready
       then goLoop 3 (h - (chargeRun h (resetStep v)).1) (chargeRun h (resetStep v)).2
       else (chargeRun h (resetStep v)).2)) ∧
    (v.batteryLevel = v.batteryCapacity →
      (stepBody 0 (resetStep v)).2.2.currentState = VState.Ready ∧
      (updateState 0 v).currentState = VState.Flying ∧
      (updateState 0 v).batteryLevel = v.batteryCapacity) := by
  obtain ⟨hcap, hsp, hepm, httc, hb0, hble, hrdy⟩ := hI
  have hs2 : (resetStep v).currentState = VState.Charging := hs
  refine ⟨fun hh _ => ?_, fun hh => ?_, fun hfull => ?_⟩
  · have hev := chargeRun_eval h v hh hcap httc hb0 hble
    exact ⟨by simp [charge, hs], hev.1, hev.2.1, hev.2.2.1, hev.2.2.2.2⟩
  · unfold updateState
    simp only [goLoop, if_neg (not_lt.mpr (le_of_lt hh)), stepBody, hs2, if_pos hh]
    by_cases hrd : (chargeRun h (resetStep v)).2.currentState = VState.Ready
    · simp [hrd]
    · simp [hrd]
  · have hge : (resetStep v).batteryLevel ≥ (resetStep v).batteryCapacity :=
      le_of_eq hfull.symm
    have hlev : (setBatteryLevel (resetStep v).batteryCapacity
        (resetStep v)).batteryLevel = (resetStep v).batteryCapacity :=
      setBatteryLevel_full (resetStep v) (le_of_lt hcap)
    have hlev2 : (setBatteryLevel v.batteryCapacity (resetStep v)).batteryLevel =
        v.batteryCapacity := setBatteryLevel_full (resetStep v) (le_of_lt hcap)
    have hpos2 : 0 < (setBatteryLevel v.batteryCapacity (resetStep v)).batteryLevel := by
      rw [hlev2]; exact hcap
    refine ⟨?_, ?_, ?_⟩ <;>
      simp [updateState, goLoop, stepBody, hs, hfull.ge, hpos2, hlev2, hcap]

theorem claim_C4_charging_witness :
    charge 1 exChargingV = Except.ok (chargeRun 1 exChargingV) ∧
    (chargeRun 1 exChargingV).1 = min (exChargingV.batteryCapacity - exChargingV.batteryLevel)
      (exChargingV.batteryCapacity / exChargingV.timeToCharge * 1) /
      (exChargingV.batteryCapacity / exChargingV.timeToCharge) :=
  have hmain := claim_C4_charging exChargingV 1 (by decide)
    ⟨by norm_num [exChargingV, mkVehicle], by norm_num [exChargingV, mkVehicle],
     by norm_num [exChargingV, mkVehicle], by norm_num [exChargingV, mkVehicle],
     by norm_num [exChargingV, mkVehicle], by norm_num [exChargingV, mkVehicle],
     fun hcs => absurd hcs (by decide)⟩
  have hpart := hmain.1 (by norm_num) (by norm_num [exChargingV, mkVehicle])
  ⟨hpart.1, hpart.2.1⟩

end EVTOL

namespace EVTOL

/-! ### Lifetime totals as the sum of per-call step statistics (C3) -/

theorem VehicleStats.ext2 {a b : VehicleStats}
    (h1 : a.flightTime = b.flightTime) (h2 : a.queuedTime = b.queuedTime)
    (h3 : a.distanceTraveled = b.distanceTraveled)
    (h4 : a.chargingTime = b.chargingTime) (h5 : a.faultedTime = b.faultedTime)
    (h6 : a.faults = b.faults) (h7 : a.passengerMiles = b.passengerMiles) :
    a = b := by
  cases a; cases b; simp_all

theorem VehicleStats.add_assoc (a b c : VehicleStats) :
    (a.add b).add c = a.add (b.add c) := by
  apply VehicleStats.ext2 <;> simp [VehicleStats.add] <;> first | ring | omega

theorem VehicleStats.add_zero_right (a : VehicleStats) : a.add VehicleStats.zero = a := by
  apply VehicleStats.ext2 <;> simp [VehicleStats.add, VehicleStats.zero]

theorem VehicleStats.zero_add_left (a : VehicleStats) : VehicleStats.zero.add a = a := by
  apply VehicleStats.ext2 <;> simp [VehicleStats.add, VehicleStats.zero]

/-- The per-step and lifetime accumulators always advance in lockstep:
`flyRun` adds the same delta to both. -/
theorem flyRun_total_add (h : ℚ) (v : Vehicle) (base : VehicleStats)
    (hv : v.totalStats = base.add v.stepStats) :
    (flyRun h v).2.totalStats = base.add (flyRun h v).2.stepStats := by
  simp only [flyRun, checkFault]
  split_ifs <;>
    apply VehicleStats.ext2 <;>
      simp [setCurrentState, setBatteryLevel, accrue, flightDelta,
        VehicleStats.add, VehicleStats.zero, hv] <;>
      first | ring | omega

theorem chargeRun_total_add (h : ℚ) (v : Vehicle) (base : VehicleStats)
    (hv : v.totalStats = base.add v.stepStats) :
    (chargeRun h v).2.totalStats = base.add (chargeRun h v).2.stepStats := by
  simp only [chargeRun]
  split_ifs <;>
    apply VehicleStats.ext2 <;>
      simp [setCurrentState, setBatteryLevel, accrue,
        VehicleStats.add, VehicleStats.zero, hv] <;>
      first | ring | omega

theorem stepBody_total_add (r : ℚ) (v : Vehicle) (base : VehicleStats)
    (hv : v.totalStats = base.add v.stepStats) :
    (stepBody r v).2.2.totalStats = base.add (stepBody r v).2.2.stepStats := by
  cases hs : v.currentState <;> simp only [stepBody, hs]
  case Ready => split_ifs <;> simpa using hv
  case Flying =>
    rcases hfv : flyRun r v with ⟨t, v1⟩
    have hT := flyRun_total_add r v base hv
    rw [hfv] at hT
    dsimp only at hT
    split_ifs <;>
      first
        | simpa using hv
        | exact hT
        | (apply VehicleStats.ext2 <;>
            simp [accrue, queuedDelta, faultedDelta,
              VehicleStats.add, VehicleStats.zero, hT] <;>
            first | ring | omega)
  case Charging =>
    rcases hcv : chargeRun r v with ⟨t, v1⟩
    have hT := chargeRun_total_add r v base hv
    rw [hcv] at hT
    dsimp only at hT
    split_ifs <;>
      first
        | simpa using hv
        | exact hT
        | (apply VehicleStats.ext2 <;>
            simp [setCurrentState, setBatteryLevel, hv] <;>
            first | ring | omega)
  case Queued =>
    split_ifs <;>
      first
        | simpa using hv
        | (apply VehicleStats.ext2 <;>
            simp [accrue, queuedDelta, VehicleStats.add, VehicleStats.zero, hv] <;>
            first | ring | omega)
  case Faulted =>
    apply VehicleStats.ext2 <;>
      simp [setCurrentState, accrue, faultedDelta,
        VehicleStats.add, VehicleStats.zero, hv] <;>
      first | ring | omega

theorem goLoop_total_add (n : ℕ) (r : ℚ) (v : Vehicle) (base : VehicleStats)
    (hv : v.totalStats = base.add v.stepStats) :
    (goLoop n r v).totalStats = base.add (goLoop n r v).stepStats := by
  induction n generalizing r v with
  | zero => exact hv
  | succ n ih =>
    simp only [goLoop]
    split_ifs with h1 h2
    · exact hv
    · exact ih _ _ (stepBody_total_add r v base hv)
    · exact stepBody_total_add r v base hv

/-- One advance call adds its own step statistics, and nothing else, to
the lifetime totals. -/
theorem updateState_total (h : ℚ) (v : Vehicle) :
    (updateState h v).totalStats = v.totalStats.add (updateState h v).stepStats := by
  have h0 : (resetStep v).totalStats = v.totalStats.add (resetStep v).stepStats := by
    simp [resetStep, VehicleStats.add_zero_right]
  exact goLoop_total_add 4 h (resetStep v) v.totalStats h0

/-- An external operation applied to a vehicle by the simulator: an
advance by a time delta, or the scheduler's `startCharging` call.  The
guard of `startCharging` throws before any mutation, so a call on a
vehicle that is not `Queued` leaves it unchanged. -/
inductive Event where
  | advance (h : ℚ)
  | beginCharging

def runEvent : Event → Vehicle → Vehicle
  | Event.advance h, v => updateState h v
  | Event.beginCharging, v =>
      match startCharging v with
      | Except.ok w => w
      | Except.error _ => v

/-- The step statistics accumulated by one event: the vehicle's step
accumulator right after the call, or nothing for a rejected
`startCharging` (which throws before accumulating anything). -/
def eventStep (e : Event) (v : Vehicle) : VehicleStats :=
  match e with
  | Event.advance h => (updateState h v).stepStats
  | Event.beginCharging =>
      match startCharging v with
      | Except.ok w => w.stepStats
      | Except.error _ => VehicleStats.zero

def runTrace : List Event → Vehicle → Vehicle
  | [], v => v
  | e :: es, v => runTrace es (runEvent e v)

def traceSteps : List Event → Vehicle → List VehicleStats
  | [], _ => []
  | e :: es, v => eventStep e v :: traceSteps es (runEvent e v)

def sumStats (l : List VehicleStats) : VehicleStats :=
  l.foldr VehicleStats.add VehicleStats.zero

theorem runEvent_total (e : Event) (v : Vehicle) :
    (runEvent e v).totalStats = v.totalStats.add (eventStep e v) := by
  cases e with
  | advance h => exact updateState_total h v
  | beginCharging =>
    simp only [runEvent, eventStep, startCharging]
    split_ifs
    · exact updateState_total 0 _
    · exact (VehicleStats.add_zero_right v.totalStats).symm

theorem runTrace_total (es : List Event) (v : Vehicle) :
    (runTrace es v).totalStats = v.totalStats.add (sumStats (traceSteps es v)) := by
  induction es generalizing v with
  | nil => exact (VehicleStats.add_zero_right v.totalStats).symm
  | cons e es ih =>
    simp only [runTrace, traceSteps, sumStats, List.foldr]
    rw [ih (runEvent e v), runEvent_total e v]
    rw [VehicleStats.add_assoc]
    rfl

/-- C3 — step statistics are reset at the start of every `updateState`
call (the result is independent of whatever the step accumulator held
before the call), and after any sequence of external operations the
lifetime totals equal the creation-time totals plus the sum of the step
statistics accumulated by each operation; for a freshly constructed
vehicle they equal that sum outright. -/
theorem claim_C3_step_reset_and_sum :
    (∀ (h : ℚ) (v : Vehicle) (s : VehicleStats),
        updateState h { v with stepStats := s } = updateState h v) ∧
    (∀ (es : List Event) (v : Vehicle),
        (runTrace es v).totalStats = v.totalStats.add (sumStats (traceSteps es v))) ∧
    (∀ (es : List Event) (cs cap ttc epm : ℚ) (pc : ℤ) (fp : ℚ)
        (rng : ℕ → ℚ → Bool),
        (runTrace es (mkVehicle cs cap ttc epm pc fp rng)).totalStats =
          sumStats (traceSteps es (mkVehicle cs cap ttc epm pc fp rng))) := by
  refine ⟨fun h v s => rfl, runTrace_total, fun es cs cap ttc epm pc fp rng => ?_⟩
  rw [runTrace_total]
  exact VehicleStats.zero_add_left _

end EVTOL

namespace EVTOL

/-! ### The simulation scheduler: charging queue, membership set, chargers
(simulation.cpp).  Vehicles are identified by an index into a fleet map;
`ids` is the iteration order of the `vehicles` vector, `stations` the
`chargingStations` array (`none` = `nullptr`), `queue` the FIFO
`chargingQueue` and `qset` the `queuedVehicles` membership set. -/

structure SimState where
  stations : List (Option ℕ)
  queue : List ℕ
  qset : List ℕ
  fleet : ℕ → Vehicle
  ids : List ℕ

/-- Point update of the fleet map. -/
def updateFleet (f : ℕ → Vehicle) (i : ℕ) (w : Vehicle) : ℕ → Vehicle :=
  fun j => if j = i then w else f j

/-- The mutation performed by a successful `startCharging` call (the
scheduler only calls it on a vehicle it has just re-checked to be
`Queued`, so the guard passes). -/
def startChargingRun (v : Vehicle) : Vehicle :=
  updateState 0 (setCurrentState VState.Charging v)

/-- The enqueue sweep of `Simulation::manageCharging` (simulation.cpp
lines 134-144): walk the fleet in vector order; push each `Queued`
vehicle to the back of the queue, and into the membership set, only if
it is not already in the set. -/
def enqueueSweep (f : ℕ → Vehicle) : List ℕ → List ℕ × List ℕ → List ℕ × List ℕ
  | [], p => p
  | i :: ids, p =>
      if (f i).currentState = VState.Queued ∧ i ∉ p.2 then
        enqueueSweep f ids (p.1 ++ [i], p.2 ++ [i])
      else enqueueSweep f ids p

/-- `Simulation::assignAvailableChargers` (simulation.cpp lines 152-173):
scan the stations in index order while the queue is non-empty; at each
empty slot pop the queue head and erase it from the membership set, then
— only if that vehicle is still `Queued` — occupy the slot with it and
call `startCharging` on it.  Returns the new stations, queue, membership
set and fleet. -/
def assignGo : (ℕ → Vehicle) → List (Option ℕ) → List ℕ → List ℕ →
    List (Option ℕ) × List ℕ × List ℕ × (ℕ → Vehicle)
  | f, [], q, qs => ([], q, qs, f)
  | f, s :: rest, [], qs => (s :: rest, [], qs, f)
  | f, none :: rest, i :: qtl, qs =>
      if (f i).currentState = VState.Queued then
        let r := assignGo (updateFleet f i (startChargingRun (f i))) rest qtl
          (qs.erase i)
        (some i :: r.1, r.2)
      else
        let r := assignGo f rest qtl (qs.erase i)
        (none :: r.1, r.2)
  | f, some w :: rest, i :: qtl, qs =>
      let r := assignGo f rest (i :: qtl) qs
      (some w :: r.1, r.2)

/-- `Simulation::manageCharging`: the enqueue sweep followed by charger
assignment. -/
def manageCharging (s : SimState) : SimState :=
  let p := enqueueSweep s.fleet s.ids (s.queue, s.qset)
  let r := assignGo s.fleet s.stations p.1 p.2
  { s with stations := r.1, queue := r.2.1, qset := r.2.2.1, fleet := r.2.2.2 }

/-- `Simulation::processChargingVehicles`: free every slot whose occupant
is no longer `Charging`. -/
def processCharging (s : SimState) : SimState :=
  { s with stations := s.stations.map (fun slot =>
      match slot with
      | none => none
      | some i => if (s.fleet i).currentState ≠ VState.Charging then none
                  else some i) }

/-- `Simulation::updateAllVehicles`: advance every vehicle by the step. -/
def updateAll (dt : ℚ) (s : SimState) : SimState :=
  { s with fleet := s.ids.foldl (fun f i => updateFleet f i (updateState dt (f i))) s.fleet }

/-- One iteration of the `runSimulation` main loop (simulation.cpp lines
54-56). -/
def tick (dt : ℚ) (s : SimState) : SimState :=
  manageCharging (updateAll dt (processCharging s))

/-- The state right after construction and initialization: all stations
free, queue and membership set empty. -/
def initSim (n : ℕ) (ids : List ℕ) (f : ℕ → Vehicle) : SimState :=
  { stations := List.replicate n none, queue := [], qset := [], fleet := f,
    ids := ids }

/-- The simulation states reachable by the main loop. -/
inductive SimReachable : SimState → Prop where
  | init (n : ℕ) (ids : List ℕ) (f : ℕ → Vehicle) : SimReachable (initSim n ids f)
  | step (dt : ℚ) (s : SimState) : SimReachable s → SimReachable (tick dt s)

/-- Number of free charger slots. -/
def emptySlots (stations : List (Option ℕ)) : ℕ :=
  stations.countP (fun s => s.isNone)

/-- The ids newly occupying previously free slots, in slot-index order. -/
def newlyFilled : List (Option ℕ) → List (Option ℕ) → List ℕ
  | none :: a, some i :: b => i :: newlyFilled a b
  | none :: a, none :: b => newlyFilled a b
  | some _ :: a, _ :: b => newlyFilled a b
  | _, _ => []

theorem newlyFilled_self (s : List (Option ℕ)) : newlyFilled s s = [] := by
  induction s with
  | nil => rfl
  | cons a rest ih => cases a <;> simp [newlyFilled, ih]

theorem assignGo_nil_stations (f : ℕ → Vehicle) (q qs : List ℕ) :
    assignGo f [] q qs = ([], q, qs, f) := rfl

theorem assignGo_nil_queue (f : ℕ → Vehicle) (s : Option ℕ)
    (rest : List (Option ℕ)) (qs : List ℕ) :
    assignGo f (s :: rest) [] qs = (s :: rest, [], qs, f) := by
  cases s <;> rfl

theorem assignGo_some (f : ℕ → Vehicle) (w : ℕ) (rest : List (Option ℕ))
    (i : ℕ) (qtl qs : List ℕ) :
    assignGo f (some w :: rest) (i :: qtl) qs =
      (some w :: (assignGo f rest (i :: qtl) qs).1,
        (assignGo f rest (i :: qtl) qs).2) := rfl

theorem assignGo_none_queued (f : ℕ → Vehicle) (rest : List (Option ℕ))
    (i : ℕ) (qtl qs : List ℕ) (h : (f i).currentState = VState.Queued) :
    assignGo f (none :: rest) (i :: qtl) qs =
      (some i :: (assignGo (updateFleet f i (startChargingRun (f i))) rest qtl
          (qs.erase i)).1,
        (assignGo (updateFleet f i (startChargingRun (f i))) rest qtl
          (qs.erase i)).2) := by
  simp [assignGo, h]

theorem assignGo_none_skip (f : ℕ → Vehicle) (rest : List (Option ℕ))
    (i : ℕ) (qtl qs : List ℕ) (h : ¬ (f i).currentState = VState.Queued) :
    assignGo f (none :: rest) (i :: qtl) qs =
      (none :: (assignGo f rest qtl (qs.erase i)).1,
        (assignGo f rest qtl (qs.erase i)).2) := by
  simp [assignGo, h]


/-- The queue/membership-set synchronization invariant of the scheduler:
both are duplicate-free and hold exactly the same ids. -/
def QueueInv (q qs : List ℕ) : Prop :=
  q.Nodup ∧ qs.Nodup ∧ ∀ x, x ∈ qs ↔ x ∈ q

theorem enqueueSweep_inv (f : ℕ → Vehicle) (ids : List ℕ) :
    ∀ p : List ℕ × List ℕ, QueueInv p.1 p.2 →
      QueueInv (enqueueSweep f ids p).1 (enqueueSweep f ids p).2 := by
  induction ids with
  | nil => intro p hp; exact hp
  | cons a ids ih =>
    intro p hp
    obtain ⟨hq, hqs, hsync⟩ := hp
    simp only [enqueueSweep]
    split_ifs with hc
    · apply ih
      have ha : a ∉ p.1 := fun h => hc.2 ((hsync a).mpr h)
      refine ⟨?_, ?_, fun x => ?_⟩
      · simp [List.nodup_append, hq, ha]
      · simp [List.nodup_append, hqs, hc.2]
      · simp [List.mem_append, hsync x]
    · exact ih p ⟨hq, hqs, hsync⟩

theorem erase_queueInv (i : ℕ) (qtl qs : List ℕ)
    (hqtl : qtl.Nodup) (hqs : qs.Nodup) (hid : i ∉ qtl)
    (hsync : ∀ x, x ∈ qs ↔ x ∈ i :: qtl) :
    QueueInv qtl (qs.erase i) := by
  refine ⟨hqtl, hqs.erase _, fun x => ?_⟩
  rw [hqs.mem_erase_iff]
  constructor
  · rintro ⟨hxne, hx⟩
    have := (hsync x).mp hx
    simp only [List.mem_cons] at this
    tauto
  · intro hx
    exact ⟨fun he => hid (he ▸ hx), (hsync x).mpr (List.mem_cons_of_mem _ hx)⟩

theorem assignGo_inv (stations : List (Option ℕ)) :
    ∀ (f : ℕ → Vehicle) (q qs : List ℕ), QueueInv q qs →
      QueueInv (assignGo f stations q qs).2.1 (assignGo f stations q qs).2.2.1 := by
  induction stations with
  | nil =>
    intro f q qs hp
    simpa [assignGo_nil_stations] using hp
  | cons s rest ih =>
    intro f q qs hp
    cases q with
    | nil =>
      rw [assignGo_nil_queue]
      exact hp
    | cons i qtl =>
      obtain ⟨hqn, hqsn, hsync⟩ := hp
      have hid : i ∉ qtl := (List.nodup_cons.mp hqn).1
      have hqtl : qtl.Nodup := (List.nodup_cons.mp hqn).2
      have herase := erase_queueInv i qtl qs hqtl hqsn hid hsync
      cases s with
      | some w =>
        rw [assignGo_some]
        exact ih f (i :: qtl) qs ⟨hqn, hqsn, hsync⟩
      | none =>
        by_cases hQd : (f i).currentState = VState.Queued
        · rw [assignGo_none_queued f rest i qtl qs hQd]
          exact ih _ qtl (qs.erase i) herase
        · rw [assignGo_none_skip f rest i qtl qs hQd]
          exact ih f qtl (qs.erase i) herase

theorem reachable_queueInv (s : SimState) (hs : SimReachable s) :
    QueueInv s.queue s.qset := by
  induction hs with
  | init n ids f =>
    exact ⟨List.nodup_nil, List.nodup_nil, fun x => Iff.rfl⟩
  | step dt s hsr ih =>
    show QueueInv (tick dt s).queue (tick dt s).qset
    have hsw := enqueueSweep_inv (updateAll dt (processCharging s)).fleet
      (updateAll dt (processCharging s)).ids
      ((updateAll dt (processCharging s)).queue, (updateAll dt (processCharging s)).qset)
      ih
    exact assignGo_inv _ _ _ _ hsw

theorem enqueueSweep_mem_mono (f : ℕ → Vehicle) (ids : List ℕ) :
    ∀ (p : List ℕ × List ℕ) (x : ℕ), x ∈ p.2 → x ∈ (enqueueSweep f ids p).2 := by
  induction ids with
  | nil => intro p x hx; exact hx
  | cons a ids ih =>
    intro p x hx
    simp only [enqueueSweep]
    split_ifs with hc
    · exact ih _ x (by simp [hx])
    · exact ih p x hx

theorem enqueueSweep_mem (f : ℕ → Vehicle) (ids : List ℕ) :
    ∀ (p : List ℕ × List ℕ) (i : ℕ), i ∈ ids →
      (f i).currentState = VState.Queued → i ∈ (enqueueSweep f ids p).2 := by
  induction ids with
  | nil => intro p i hi; cases hi
  | cons a ids ih =>
    intro p i hi hQd
    simp only [enqueueSweep]
    rcases List.mem_cons.mp hi with h | h
    · subst h
      by_cases hc : (f i).currentState = VState.Queued ∧ i ∉ p.2
      · rw [if_pos hc]
        exact enqueueSweep_mem_mono f ids _ i (by simp)
      · rw [if_neg hc]
        have hmem : i ∈ p.2 := by
          by_contra hni
          exact hc ⟨hQd, hni⟩
        exact enqueueSweep_mem_mono f ids p i hmem
    · split_ifs <;> exact ih _ i h hQd

theorem enqueueSweep_noop (f : ℕ → Vehicle) (ids : List ℕ)
    (p : List ℕ × List ℕ)
    (hall : ∀ i ∈ ids, (f i).currentState = VState.Queued → i ∈ p.2) :
    enqueueSweep f ids p = p := by
  induction ids with
  | nil => rfl
  | cons a ids ih =>
    simp only [enqueueSweep]
    rw [if_neg (fun hc => hc.2 (hall a (List.mem_cons_self a ids) hc.1))]
    exact ih (fun i hi hq => hall i (List.mem_cons_of_mem a hi) hq)


/-- C6 — in every reachable simulation state the charging queue is
duplicate-free and the membership set mirrors it exactly; and the enqueue
sweep is idempotent: running it a second time over the same fleet adds
nothing. -/
theorem claim_C6_queue_unique :
    (∀ s : SimState, SimReachable s →
        s.queue.Nodup ∧ ∀ x, x ∈ s.qset ↔ x ∈ s.queue) ∧
    (∀ (f : ℕ → Vehicle) (ids : List ℕ) (p : List ℕ × List ℕ),
        enqueueSweep f ids (enqueueSweep f ids p) = enqueueSweep f ids p) := by
  constructor
  · intro s hs
    obtain ⟨h1, _, h3⟩ := reachable_queueInv s hs
    exact ⟨h1, h3⟩
  · intro f ids p
    exact enqueueSweep_noop f ids _ (fun i hi hq => enqueueSweep_mem f ids p i hi hq)

theorem claim_C6_queue_unique_witness :
    (tick 1 (initSim 2 [0, 1] (fun _ => exPlainV))).queue.Nodup :=
  (claim_C6_queue_unique.1 _
    (SimReachable.step 1 _ (SimReachable.init 2 [0, 1] (fun _ => exPlainV)))).1

/-- FIFO assignment: with `m` the number of assignments performed
(free slots, capped by the queue length), the first `m` queued ids are
popped in order, each is erased from the membership set, the free slots
are occupied in index order by exactly those popped ids that are still
`Queued`, and `startCharging` runs on exactly those. -/
theorem assignGo_spec (stations : List (Option ℕ)) :
    ∀ (f : ℕ → Vehicle) (q qs : List ℕ), q.Nodup →
      (assignGo f stations q qs).2.1 =
          q.drop (min (emptySlots stations) q.length) ∧
      newlyFilled stations (assignGo f stations q qs).1 =
          (q.take (min (emptySlots stations) q.length)).filter
            (fun j => decide ((f j).currentState = VState.Queued)) ∧
      (assignGo f stations q qs).2.2.1 =
          (q.take (min (emptySlots stations) q.length)).foldl
            (fun s j => s.erase j) qs ∧
      ∀ j, (assignGo f stations q qs).2.2.2 j =
          if (f j).currentState = VState.Queued ∧
              j ∈ q.take (min (emptySlots stations) q.length)
          then startChargingRun (f j) else f j := by
  induction stations with
  | nil =>
    intro f q qs hq
    refine ⟨?_, ?_, ?_, fun j => ?_⟩ <;>
      simp [assignGo_nil_stations, emptySlots, newlyFilled]
  | cons s rest ih =>
    intro f q qs hq
    cases q with
    | nil =>
      refine ⟨?_, ?_, ?_, fun j => ?_⟩ <;>
        simp [assignGo_nil_queue, newlyFilled_self]
    | cons i qtl =>
      have hid : i ∉ qtl := (List.nodup_cons.mp hq).1
      have hqtl : qtl.Nodup := (List.nodup_cons.mp hq).2
      cases s with
      | some w =>
        have hE : emptySlots (some w :: rest) = emptySlots rest := by
          simp [emptySlots, List.countP_cons]
        obtain ⟨h1, h2, h3, h4⟩ := ih f (i :: qtl) qs hq
        refine ⟨?_, ?_, ?_, fun j => ?_⟩
        · simpa [assignGo_some, hE] using h1
        · simpa [assignGo_some, newlyFilled, hE] using h2
        · simpa [assignGo_some, hE] using h3
        · simpa [assignGo_some, hE] using h4 j
      | none =>
        have hE : emptySlots (none :: rest) = emptySlots rest + 1 := by
          simp [emptySlots, List.countP_cons]
        have hmin : min (emptySlots (none :: rest)) (i :: qtl).length
            = min (emptySlots rest) qtl.length + 1 := by
          rw [hE]
          simp only [List.length_cons]
          omega
        by_cases hQd : (f i).currentState = VState.Queued
        · obtain ⟨h1, h2, h3, h4⟩ :=
            ih (updateFleet f i (startChargingRun (f i))) qtl (qs.erase i) hqtl
          have hcong :
              (qtl.take (min (emptySlots rest) qtl.length)).filter
                  (fun j => decide ((updateFleet f i (startChargingRun (f i)) j).currentState
                    = VState.Queued))
                = (qtl.take (min (emptySlots rest) qtl.length)).filter
                  (fun j => decide ((f j).currentState = VState.Queued)) := by
            apply List.filter_congr
            intro x hx
            have hxne : x ≠ i := fun hxe => hid (hxe ▸ List.take_subset _ _ hx)
            simp [updateFleet, hxne]
          refine ⟨?_, ?_, ?_, fun j => ?_⟩
          · rw [assignGo_none_queued f rest i qtl qs hQd, hmin]
            simpa [List.drop_succ_cons] using h1
          · rw [assignGo_none_queued f rest i qtl qs hQd, hmin, List.take_succ_cons]
            show newlyFilled (none :: rest) (some i :: _) = _
            simp only [newlyFilled]
            rw [h2, hcong]
            simp [hQd]
          · rw [assignGo_none_queued f rest i qtl qs hQd, hmin, List.take_succ_cons,
              List.foldl_cons]
            exact h3
          · rw [assignGo_none_queued f rest i qtl qs hQd, hmin, List.take_succ_cons]
            show (assignGo _ rest qtl (qs.erase i)).2.2.2 j = _
            rw [h4 j]
            by_cases hj : j = i
            · subst hj
              have hnot : j ∉ qtl.take (min (emptySlots rest) qtl.length) :=
                fun hc => hid (List.take_subset _ _ hc)
              simp [updateFleet, hnot, hQd]
            · have hupd : updateFleet f i (startChargingRun (f i)) j = f j := by
                simp [updateFleet, hj]
              rw [hupd]
              by_cases hmem : j ∈ qtl.take (min (emptySlots rest) qtl.length) <;>
                simp [hmem, hj]
        · obtain ⟨h1, h2, h3, h4⟩ := ih f qtl (qs.erase i) hqtl
          refine ⟨?_, ?_, ?_, fun j => ?_⟩
          · rw [assignGo_none_skip f rest i qtl qs hQd, hmin]
            simpa [List.drop_succ_cons] using h1
          · rw [assignGo_none_skip f rest i qtl qs hQd, hmin, List.take_succ_cons]
            show newlyFilled (none :: rest) (none :: _) = _
            simp only [newlyFilled]
            rw [h2]
            simp [hQd]
          · rw [assignGo_none_skip f rest i qtl qs hQd, hmin, List.take_succ_cons,
              List.foldl_cons]
            exact h3
          · rw [assignGo_none_skip f rest i qtl qs hQd, hmin, List.take_succ_cons]
            show (assignGo f rest qtl (qs.erase i)).2.2.2 j = _
            rw [h4 j]
            by_cases hj : j = i
            · subst hj
              simp [hQd]
            · by_cases hmem : j ∈ qtl.take (min (emptySlots rest) qtl.length) <;>
                simp [hmem, hj]


/-- C5 — charger assignment is strict FIFO by enqueue order: with `m`
free slots (capped by the queue length), the scan pops exactly the first
`m` queued ids in order and erases each from the membership set; the free
slots, in index order, are occupied by exactly those popped ids that are
still `Queued`, `startCharging` runs on exactly those, and every id
popped while no longer `Queued` leaves its slot empty and is dropped. -/
theorem claim_C5_fifo_assignment (f : ℕ → Vehicle) (stations : List (Option ℕ))
    (q qs : List ℕ) (hq : q.Nodup) :
    (assignGo f stations q qs).2.1 =
        q.drop (min (emptySlots stations) q.length) ∧
    newlyFilled stations (assignGo f stations q qs).1 =
        (q.take (min (emptySlots stations) q.length)).filter
          (fun j => decide ((f j).currentState = VState.Queued)) ∧
    (assignGo f stations q qs).2.2.1 =
        (q.take (min (emptySlots stations) q.length)).foldl
          (fun s j => s.erase j) qs ∧
    ∀ j, (assignGo f stations q qs).2.2.2 j =
        if (f j).currentState = VState.Queued ∧
            j ∈ q.take (min (emptySlots stations) q.length)
        then startChargingRun (f j) else f j :=
  assignGo_spec stations f q qs hq

/-- A fleet with vehicle 2 `Ready` and all others `Queued`. -/
def exFleet : ℕ → Vehicle :=
  fun j => if j = 2 then exPlainV else { exPlainV with currentState := VState.Queued }

theorem claim_C5_fifo_assignment_witness :
    ([1, 2, 3] : List ℕ).Nodup ∧
    ((assignGo exFleet [none, some 5, none] [1, 2, 3] [1, 2, 3]).2.1 =
        [1, 2, 3].drop (min (emptySlots [none, some 5, none])
          ([1, 2, 3] : List ℕ).length) ∧
      newlyFilled [none, some 5, none]
          (assignGo exFleet [none, some 5, none] [1, 2, 3] [1, 2, 3]).1 =
        ([1, 2, 3].take (min (emptySlots [none, some 5, none])
            ([1, 2, 3] : List ℕ).length)).filter
          (fun j => decide ((exFleet j).currentState = VState.Queued)) ∧
      (assignGo exFleet [none, some 5, none] [1, 2, 3] [1, 2, 3]).2.2.1 =
        ([1, 2, 3].take (min (emptySlots [none, some 5, none])
            ([1, 2, 3] : List ℕ).length)).foldl
          (fun s j => s.erase j) [1, 2, 3] ∧
      (assignGo exFleet [none, some 5, none] [1, 2, 3] [1, 2, 3]).2.2.2 7 =
        if (exFleet 7).currentState = VState.Queued ∧
            7 ∈ [1, 2, 3].take (min (emptySlots [none, some 5, none])
              ([1, 2, 3] : List ℕ).length)
        then startChargingRun (exFleet 7) else exFleet 7) := by
  refine ⟨by decide, ?_, ?_, ?_, ?_⟩
  · exact (claim_C5_fifo_assignment exFleet [none, some 5, none] [1, 2, 3] [1, 2, 3]
      (by decide)).1
  · exact (claim_C5_fifo_assignment exFleet [none, some 5, none] [1, 2, 3] [1, 2, 3]
      (by decide)).2.1
  · exact (claim_C5_fifo_assignment exFleet [none, some 5, none] [1, 2, 3] [1, 2, 3]
      (by decide)).2.2.1
  · exact (claim_C5_fifo_assignment exFleet [none, some 5, none] [1, 2, 3] [1, 2, 3]
      (by decide)).2.2.2 7

end EVTOL
